import Mathlib

/-!
# Verification of the metaflow-zero core against its specification

This development gives a shallow embedding, in Lean 4, of the parts of the
metaflow-zero code base that the specification's checkable claims are about:

* `Transition.resolve_switch_target` and `FlowSpec` state handling
  (`src/metaflow/flowspec.py`),
* the client tag and namespace operations (`src/metaflow/client/__init__.py`),
* the matching-join resolution of the graph analyser (`src/metaflow/graph.py`),
* the task attempt/retry/catch loop and the scheduler's foreach handling
  (`src/metaflow/runtime.py`).

Python dictionaries are modelled as insertion-ordered association lists
(`List (String × _)`, first-match lookup, in-place overwrite on update);
Python sets of strings are modelled as `Finset String`; Python exceptions are
modelled as `Except` values.  Each definition mirrors one Python function and
is named after it where Lean's lexical rules allow.
-/

set_option autoImplicit false

namespace MetaflowZero

/-! ## Ordered-dictionary helpers

Python `dict` semantics: `lookup` finds the first (unique) matching key,
`dictSet` overwrites in place when the key exists and appends otherwise. -/

/-- Python `s.startswith(p)`, modelled on the character list so that it is
kernel-evaluable (Lean's own `String.startsWith` is byte-position based and
does not reduce). -/
def str_startswith (s p : String) : Bool := p.data.isPrefixOf s.data

/-- `d[k] = v` on an insertion-ordered dictionary: overwrite in place if the
key is present, append otherwise. -/
def dictSet {α : Type} (m : List (String × α)) (k : String) (v : α) :
    List (String × α) :=
  if (m.lookup k).isSome then
    m.map (fun kv => if kv.1 = k then (k, v) else kv)
  else m ++ [(k, v)]

/-! ## `Transition.resolve_switch_target` (src/metaflow/flowspec.py)

`Transition` records what `self.next(...)` declared.  A switch condition value
(and a dict-style switch target) is an arbitrary Python object; the code
distinguishes objects carrying `__func__` (bound methods), objects carrying
`__name__` (plain functions), strings, and everything else (used only through
`str(...)`). -/

/-- A Python object appearing as a switch condition value or a dict-style
switch target. `funcRef` has a `__func__` attribute (a bound method);
`namedRef` has `__name__` but no `__func__`; `strVal` is a `str`; `objVal` is
any other object, known only by its `str(...)` rendering. -/
inductive PyObj where
  | funcRef (name : String)
  | namedRef (name : String)
  | strVal (s : String)
  | objVal (strForm : String)
deriving DecidableEq, Repr

/-- `str(obj)` for the objects modelled by `PyObj`.  For methods and functions
CPython renders a `<bound method …>` / `<function …>` form; the exact shape of
those strings is irrelevant to every claim, only that they are the value used
for dict lookups. -/
def pyStr : PyObj → String
  | .funcRef n => "<bound method " ++ n ++ ">"
  | .namedRef n => "<function " ++ n ++ ">"
  | .strVal s => s
  | .objVal f => f

/-- The `targets` tuple of a `Transition`: either positional step references,
or (dict-style switch) a single dict mapping string keys to step references. -/
inductive Targets where
  | refs (l : List PyObj)
  | dictTargets (d : List (String × PyObj))
deriving DecidableEq, Repr

/-- `target_func.__func__.__name__` / `target_func.__name__` / `str(target_func)`
resolution applied to a dict-style target value (flowspec.py lines 31-36). -/
def targetName : PyObj → String
  | .funcRef n => n
  | .namedRef n => n
  | .strVal s => s
  | .objVal f => f

/-- The `Transition` dataclass (flowspec.py lines 13-18). -/
structure Transition where
  targets : Targets
  foreach_var : Option String := none
  condition_var : Option String := none
deriving DecidableEq, Repr

/-- `Transition.resolve_switch_target` (flowspec.py lines 20-45).  Dict-style:
look `str(cv)` up in the declared dict, resolving a hit to its step name and
returning `str(cv)` itself on a miss.  Direct style: resolve the condition
value itself via `__func__`/`__name__`/`str`, returning `None` for objects
that are none of those. -/
def Transition.resolve_switch_target (t : Transition) (cv : PyObj) :
    Option String :=
  match t.targets with
  | .dictTargets d =>
    match d.lookup (pyStr cv) with
    | some tf => some (targetName tf)
    | none => some (pyStr cv)
  | .refs _ =>
    match cv with
    | .funcRef n => some n
    | .namedRef n => some n
    | .strVal s => some s
    | .objVal _ => none

/-! ## Foreach frames and `FlowSpec.load_parent_state` (src/metaflow/flowspec.py)

`_ensure_foreach_frames` (runtime.py lines 26-38) normalises raw stack items
(already-built `ForeachFrame` namedtuples, or 5- or 4-tuples) into frames.  Frame
payload values are modelled as integers; their content is irrelevant to every
claim. -/

/-- The `ForeachFrame` namedtuple `(step, var, index, value, num_splits)`
(runtime.py line 13); `num_splits = None` means an unbounded foreach. -/
structure ForeachFrame where
  step : String
  var : String
  index : Nat
  value : Int
  num_splits : Option Nat
deriving DecidableEq, Repr

/-- A raw item of a persisted `_foreach_stack`: either an already-normalised
frame, or a 5- or 4-tuple as accepted by `_ensure_foreach_frames`. -/
inductive RawStackItem where
  | frame (f : ForeachFrame)
  | tup5 (step var : String) (index : Nat) (value : Int) (numSplits : Nat)
  | tup4 (step var : String) (index : Nat) (value : Int)
deriving DecidableEq, Repr

/-- `_ensure_foreach_frames` (runtime.py lines 26-38): normalise each item to a
`ForeachFrame` (a 4-tuple gets `num_splits = None`). -/
def ensure_foreach_frames (l : List RawStackItem) : List ForeachFrame :=
  l.map fun it =>
    match it with
    | .frame f => f
    | .tup5 s v i x n => ⟨s, v, i, x, some n⟩
    | .tup4 s v i x => ⟨s, v, i, x, none⟩

/-- An artifact value as stored in a task's artifact dictionary, for the flow
state model: booleans (`_task_ok`), numbers, strings, a persisted foreach
stack (`_foreach_stack`), or an opaque wrapper object (`_exception`). -/
inductive AVal where
  | abool (b : Bool)
  | aint (n : Int)
  | astr (s : String)
  | astack (l : List RawStackItem)
  | awrapper
deriving DecidableEq, Repr

/-- The per-task flow state that `load_parent_state` populates: the in-memory
artifact dictionary and the live foreach stack. -/
structure FlowState where
  artifacts : List (String × AVal)
  foreachStack : List ForeachFrame
deriving DecidableEq, Repr

/-- One iteration of the `load_parent_state` loop (flowspec.py lines 150-157):
a non-underscore key is copied into `self._artifacts`; of the underscore keys
only `"_foreach_stack"` is consumed (through `_ensure_foreach_frames`); every
other underscore key is dropped.  The scheduler always persists
`_foreach_stack` as a stack value (`get_persistable_state`), so the model
keeps the current stack if the value is not one. -/
def load_parent_step (st : FlowState) (k : String) (v : AVal) : FlowState :=
  if ¬ str_startswith k "_" then
    { st with artifacts := dictSet st.artifacts k v }
  else if k = "_foreach_stack" then
    match v with
    | .astack l => { st with foreachStack := ensure_foreach_frames l }
    | _ => st
  else st

/-- The `for k, v in parent_artifacts.items()` loop of `load_parent_state`. -/
def load_parent_from (st : FlowState) : List (String × AVal) → FlowState
  | [] => st
  | (k, v) :: rest => load_parent_from (load_parent_step st k v) rest

/-- `FlowSpec.load_parent_state` (flowspec.py lines 150-157), started from the
fresh flow instance built by `_create_instance` (empty artifact dictionary,
empty foreach stack). -/
def load_parent_state (parent : List (String × AVal)) : FlowState :=
  load_parent_from ⟨[], []⟩ parent

/-! ## Client tag operations (src/metaflow/client/__init__.py)

`Run` tag mutation reads `run_meta = {tags, sys_tags}` from the metadata
provider, manipulates Python sets of strings, and writes the user tags back
via `update_run_tags`.  The two string sets are modelled as `Finset String`.
A tag argument is either a string or some non-string object (`_validate_tag`
and `remove_tag` check `isinstance(tag, str)`). -/

/-- A Python argument passed as one tag: either a string or a non-string. -/
inductive TagArg where
  | str (s : String)
  | nonStr
deriving DecidableEq, Repr

/-- A run's stored metadata as read by the tag operations: the mutable user
tags and the immutable system tags. -/
structure RunMeta where
  tags : Finset String
  sys_tags : Finset String
deriving DecidableEq

/-- `Run._validate_tag` (client/__init__.py lines 650-663): a tag must be a
string, non-empty, and of length at most 512 — `len(tag)` counts code points,
not UTF-8 bytes.  (The final `tag.encode("utf-8")` check only rejects strings
holding lone surrogates, which Lean's `String` cannot represent; it never
fails on the values modelled here.) -/
def validate_tag : TagArg → Except String Unit
  | .nonStr => .error "Tag must be a string"
  | .str s =>
    if s.length = 0 then .error "Tag must not be empty"
    else if s.length > 512 then .error "Tag must not exceed 512 characters"
    else .ok ()

/-- `Run.add_tag` (client/__init__.py lines 672-686), single-string form:
validate, silently skip a tag equal to a system tag, otherwise add it to the
stored user tag set. -/
def add_tag (m : RunMeta) (t : TagArg) : Except String RunMeta :=
  match validate_tag t with
  | .error e => .error e
  | .ok _ =>
    match t with
    | .nonStr => .ok m
    | .str s =>
      if s ∈ m.sys_tags then .ok m
      else .ok { m with tags := insert s m.tags }

/-- The validation loop of `Run.add_tags` (client/__init__.py lines 688-698):
each tag is validated in order; system tags are silently skipped; the
accumulated user tag set is written back only after the whole loop. -/
def add_tags_go (sysTags : Finset String) (acc : Finset String) :
    List TagArg → Except String (Finset String)
  | [] => .ok acc
  | t :: rest =>
    match validate_tag t with
    | .error e => .error e
    | .ok _ =>
      match t with
      | .nonStr => add_tags_go sysTags acc rest
      | .str s =>
        if s ∈ sysTags then add_tags_go sysTags acc rest
        else add_tags_go sysTags (insert s acc) rest

/-- `Run.add_tags`: an error mid-loop propagates before `update_run_tags`
runs, so the stored metadata is unchanged on error. -/
def add_tags (m : RunMeta) (ts : List TagArg) : Except String RunMeta :=
  match add_tags_go m.sys_tags m.tags ts with
  | .error e => .error e
  | .ok newTags => .ok { m with tags := newTags }

/-- `Run.remove_tag` (client/__init__.py lines 700-715), single-string form:
a non-string argument and a system tag both raise; otherwise the tag is
discarded from the user tag set. -/
def remove_tag (m : RunMeta) (t : TagArg) : Except String RunMeta :=
  match t with
  | .nonStr => .error "Tag must be a string"
  | .str s =>
    if s ∈ m.sys_tags then .error "Cannot remove system tag"
    else .ok { m with tags := m.tags.erase s }

/-- The validation loop of `Run.remove_tags` and `Run.replace_tags`: every
tag to remove must be a string and must not be a system tag. -/
def check_removables (sysTags : Finset String) :
    List TagArg → Except String Unit
  | [] => .ok ()
  | .nonStr :: _ => .error "Tag must be a string"
  | .str s :: rest =>
    if s ∈ sysTags then .error "Cannot remove system tag"
    else check_removables sysTags rest

/-- The string entries of a tag-argument list (used to build Python
`set(tags)` from the arguments once validation has passed). -/
def tagStrings (ts : List TagArg) : Finset String :=
  (ts.filterMap fun t => match t with | .str s => some s | .nonStr => none).toFinset

/-- `Run.remove_tags` (client/__init__.py lines 717-729): validate every tag,
then subtract them all from the stored user tag set. -/
def remove_tags (m : RunMeta) (ts : List TagArg) : Except String RunMeta :=
  match check_removables m.sys_tags ts with
  | .error e => .error e
  | .ok _ => .ok { m with tags := m.tags \ tagStrings ts }

/-- `Run.replace_tag` (client/__init__.py lines 731-742), single-string form:
discard `old_tag`, add `new_tag`.  The source performs no validation here —
`new_tag` is not validated and is not checked against the system tags — so
the operation cannot fail. -/
def replace_tag (m : RunMeta) (oldTag newTag : String) : RunMeta :=
  { m with tags := insert newTag (m.tags.erase oldTag) }

/-- `Run.replace_tags` (client/__init__.py lines 744-759): require at least
one tag to remove or add; validate only the tags to remove (string, not a
system tag); then subtract the removals and add every `tags_to_add` entry —
the source does not check the added tags against the system tags. -/
def replace_tags (m : RunMeta) (toRemove : List TagArg)
    (toAdd : List String) : Except String RunMeta :=
  if toRemove = [] ∧ toAdd = [] then .error "Must provide tags to remove or add"
  else
    match check_removables m.sys_tags toRemove with
    | .error e => .error e
    | .ok _ =>
      .ok { m with tags := (m.tags \ tagStrings toRemove) ∪ toAdd.toFinset }

/-! ## Client namespace checks (src/metaflow/client/__init__.py)

`get_namespace()` returns the ambient namespace string or `None`; each client
entity constructor with `_namespace_check=True` calls its `_check_namespace`,
which reads `run_meta` and compares the namespace against
`set(tags + sys_tags)`. -/

/-- `set(run_meta.get("tags", []) + run_meta.get("sys_tags", []))`. -/
def allTags (m : RunMeta) : Finset String := m.tags ∪ m.sys_tags

/-- `Run._check_namespace` (client/__init__.py lines 520-534): with a non-null
namespace, a missing run raises, and an existing run raises exactly when the
combined tag set does not contain the namespace. -/
def run_check_namespace (ns : Option String) (runMeta : Option RunMeta) :
    Except String Unit :=
  match ns with
  | none => .ok ()
  | some n =>
    match runMeta with
    | none => .error "Run not found or not in namespace"
    | some m =>
      if n ∈ allTags m then .ok ()
      else .error "Run not in namespace"

/-- `Task._check_namespace` (client/__init__.py lines 136-153): a missing run
returns silently; an existing run raises when the namespace is missing from
the combined tag set — the first guard covers non-`user:` namespaces, the
second covers `user:`-prefixed ones. -/
def task_check_namespace (ns : Option String) (runMeta : Option RunMeta) :
    Except String Unit :=
  match ns with
  | none => .ok ()
  | some n =>
    match runMeta with
    | none => .ok ()
    | some m =>
      if n ∉ allTags m ∧ ¬ str_startswith n "user:" then
        .error "Task not in namespace"
      else if str_startswith n "user:" ∧ n ∉ allTags m then
        .error "Task not in namespace"
      else .ok ()

/-- `Step._check_namespace` (client/__init__.py lines 380-392): a missing run
returns silently, and an existing run raises only when the namespace starts
with `"user:"` and is missing from the combined tag set — a namespace without
the `user:` prefix is never enforced for steps. -/
def step_check_namespace (ns : Option String) (runMeta : Option RunMeta) :
    Except String Unit :=
  match ns with
  | none => .ok ()
  | some n =>
    match runMeta with
    | none => .ok ()
    | some m =>
      if str_startswith n "user:" ∧ n ∉ allTags m then
        .error "Step not in namespace"
      else .ok ()

/-- Whether an `Except` models a raised Python exception. -/
def isErr {ε α : Type} : Except ε α → Bool
  | .error _ => true
  | .ok _ => false

/-! ## `FlowSpec.merge_artifacts` (src/metaflow/flowspec.py lines 238-332)

The join-step self is modelled by its artifact dictionary and its set of
immutable attribute names (parameters / configs / class variables); artifact
values are an arbitrary type with decidable equality, mirroring the `v == uv`
comparisons of the source (the `except`-fallback to identity comparison is
unreachable for values whose equality is total).  The join-step validity
check at the top of the source function needs the graph context and is not
part of any claim; the model covers the merge logic that follows it. -/

/-- The state of the join step on which `merge_artifacts` is called. -/
structure JoinSelf (α : Type) where
  artifacts : List (String × α)
  immutable_attrs : List String
deriving DecidableEq, Repr

/-- The error kinds `merge_artifacts` can raise. -/
inductive MergeError where
  | unhandledInMerge (names : List String)
  | missingInMerge (names : List String)
  | excludeAndInclude
deriving DecidableEq, Repr

/-- The per-name filter of the collection loop (flowspec.py lines 267-275):
keep a name unless it is underscore-prefixed, immutable, excluded, or outside
the include set (when one is given). -/
def mergeKeeps {α : Type} (self : JoinSelf α) (excl : List String)
    (inclSet : Option (List String)) (name : String) : Bool :=
  !str_startswith name "_" && !self.immutable_attrs.contains name &&
    !excl.contains name &&
    (match inclSet with | some l => l.contains name | none => true)

/-- `all_artifacts[name].append(val)`, creating the key on first use:
append the value to the entry for `k` if present, else append a new entry. -/
def addVal {α : Type} (m : List (String × List α)) (k : String) (v : α) :
    List (String × List α) :=
  if (m.lookup k).isSome then
    m.map (fun kv => if kv.1 = k then (kv.1, kv.2 ++ [v]) else kv)
  else m ++ [(k, [v])]

/-- The `all_artifacts` collection loop (flowspec.py lines 264-278): walk all
inputs in order, all artifacts of each input in order, and group the surviving
values by name. -/
def collect_all_artifacts {α : Type} (self : JoinSelf α) (excl : List String)
    (inclSet : Option (List String)) (inputs : List (List (String × α))) :
    List (String × List α) :=
  (inputs.flatMap id).foldl
    (fun acc kv => if mergeKeeps self excl inclSet kv.1 then addVal acc kv.1 kv.2 else acc)
    []

/-- `unique_vals` deduplication (flowspec.py lines 302-315): keep the first
occurrence of each distinct value, in order. -/
def unique_vals {α : Type} [DecidableEq α] (vs : List α) : List α :=
  vs.foldl (fun acc v => if acc.contains v then acc else acc ++ [v]) []

/-- One step of the conflict loop (flowspec.py lines 296-320): a name already
set on `self` is skipped; otherwise more than one distinct value makes it
`unhandled`, exactly one makes it a `to_set` entry. -/
def conflict_scan_step {α : Type} [DecidableEq α] (self : JoinSelf α)
    (acc : List String × List (String × α)) (kv : String × List α) :
    List String × List (String × α) :=
  if (self.artifacts.lookup kv.1).isSome then acc
  else
    match unique_vals kv.2 with
    | [] => acc
    | [v] => (acc.1, acc.2 ++ [(kv.1, v)])
    | _ :: _ :: _ => (acc.1 ++ [kv.1], acc.2)

/-- `FlowSpec.merge_artifacts` (flowspec.py lines 238-332).  Mirrors the
source: reject `exclude` together with `include`; an empty `include` list is
falsy and behaves like no `include`; collect candidate values; fail with
`MissingInMerge` when `include` names nothing available; compute the
`unhandled` conflict list and the `to_set` map; fail with `UnhandledInMerge`
on any conflict *before* touching `self`; otherwise apply every `to_set`
entry. -/
def merge_artifacts {α : Type} [DecidableEq α] (self : JoinSelf α)
    (inputs : List (List (String × α)))
    (exclude : Option (List String)) (incl : Option (List String)) :
    Except MergeError (JoinSelf α) :=
  if exclude.isSome ∧ incl.isSome then .error .excludeAndInclude
  else
    let excl := match exclude with | some l => l | none => []
    let inclSet : Option (List String) :=
      match incl with
      | some l => if l.isEmpty then none else some l
      | none => none
    let allArts := collect_all_artifacts self excl inclSet inputs
    let missing : List String :=
      match inclSet with
      | some inc =>
        let allAvailable := (inputs.flatMap id).filterMap
          (fun kv => if str_startswith kv.1 "_" then none else some kv.1)
        (inc.filter fun n =>
          !allAvailable.contains n && !(self.artifacts.map Prod.fst).contains n &&
            !self.immutable_attrs.contains n).dedup
      | none => []
    if missing ≠ [] then .error (.missingInMerge missing)
    else
      let scanned := allArts.foldl (conflict_scan_step self) ([], [])
      if scanned.1 ≠ [] then .error (.unhandledInMerge scanned.1)
      else
        .ok { self with
              artifacts := scanned.2.foldl (fun a kv => dictSet a kv.1 kv.2) self.artifacts }

/-- The claim's notion of the candidate values a name takes across the
inputs: all values stored under the name in any input, in input order,
restricted to names that survive the underscore/immutable/exclude filters
(no `include` given). -/
def candidate_values {α : Type} (self : JoinSelf α) (excl : List String)
    (inputs : List (List (String × α))) (name : String) : List α :=
  (inputs.flatMap id).filterMap fun kv =>
    if kv.1 = name ∧ mergeKeeps self excl none kv.1 = true then some kv.2 else none

/-- The claim's notion of a merge conflict: a candidate name that is not
already set on `self` and takes more than one distinct value across the
inputs. -/
def HasConflict {α : Type} (self : JoinSelf α) (excl : List String)
    (inputs : List (List (String × α))) (name : String) : Prop :=
  self.artifacts.lookup name = none ∧
    ∃ v ∈ candidate_values self excl inputs name,
      ∃ w ∈ candidate_values self excl inputs name, v ≠ w

/-! ## The task attempt loop of `Runtime._execute_task`
(src/metaflow/runtime.py lines 1098-1452)

One run of `_execute_task` is abstracted over the outcome of each forked
child attempt (success / exception exit 1 / killed by signal / other exit)
and over the step's decorators.  The model records the `attempt` metadata
entries registered, the `task_ok` flags of the `_save_task_results` calls,
whether `_execute_task` re-raised, and the returned `taken_branch`. -/

/-- The outcome of one forked child attempt, as seen by the parent process:
clean exit 0 with a valid `TaskResult` (carrying the taken branch), exit 1
(an exception in the step body), a signal kill (`WIFSIGNALED`), or any other
exit (including exit 2 and an unreadable result file). -/
inductive ChildOutcome where
  | ok (takenBranch : Option String)
  | exc
  | killed (sig : Int)
  | badExit
deriving DecidableEq, Repr

/-- How the `for attempt in range(max_retries + 1)` loop ended: a successful
attempt, an exception on the final attempt, or exhaustion with
`killed_by_signal` set. -/
inductive LoopExit where
  | success (tb : Option String)
  | excFinal
  | signalExit (sig : Int)
deriving DecidableEq, Repr

/-- The loop's observable effects: registered `attempt` metadata values, and
how it ended. -/
structure LoopOut where
  attemptsMeta : List Nat
  exit : LoopExit
deriving DecidableEq, Repr

/-- The attempt loop body (runtime.py lines 1108-1371), one constructor-case
per parent-side branch.  Each iteration first registers
`{"type": "attempt", "value": str(attempt)}`; a signal kill or unknown exit
below the retry budget continues the loop with `killed_by_signal` updated
(`killed_by_signal or -1` maps `None` and `0` to `-1`); an exception below
the budget continues; final-attempt behaviour is returned as a `LoopExit`.
The fuel equals the remaining iterations and never runs out when started
with `maxR + 1`. -/
def runLoopBody (outcomes : Nat → ChildOutcome) (maxR : Nat)
    (rec : Nat → Option Int → List Nat → LoopOut)
    (attempt : Nat) (kbs : Option Int) (acc : List Nat) : LoopOut :=
  let acc2 := acc ++ [attempt]
  match outcomes attempt with
  | .ok tb => ⟨acc2, .success tb⟩
  | .exc =>
    if attempt < maxR then rec (attempt + 1) kbs acc2
    else ⟨acc2, .excFinal⟩
  | .killed s =>
    if attempt < maxR then rec (attempt + 1) (some s) acc2
    else ⟨acc2, .signalExit s⟩
  | .badExit =>
    let k2 : Int := match kbs with | some k => if k = 0 then -1 else k | none => -1
    if attempt < maxR then rec (attempt + 1) (some k2) acc2
    else ⟨acc2, .signalExit k2⟩

/-- The attempt loop, with the fuel counting the remaining iterations. -/
def runLoopGo (outcomes : Nat → ChildOutcome) (maxR : Nat) :
    Nat → Nat → Option Int → List Nat → LoopOut
  | 0, _, kbs, acc => ⟨acc, .signalExit (kbs.getD (-1))⟩
  | fuel + 1, attempt, kbs, acc =>
    runLoopBody outcomes maxR (runLoopGo outcomes maxR fuel) attempt kbs acc

/-- The whole `for attempt in range(max_retries + 1)` loop. -/
def runLoop (outcomes : Nat → ChildOutcome) (maxR : Nat) : LoopOut :=
  runLoopGo outcomes maxR (maxR + 1) 0 none []

/-- A step decorator, as far as `_execute_task` consults it: the `times`
attribute when it is a `RetryDecorator`, whether it is a `CatchDecorator`
(the signal-kill fallback requires one), and the boolean its
`task_exception` hook returns (`CatchDecorator.task_exception` always
returns `True`; the base class returns `False`). -/
structure DecoModel where
  retryTimes : Option Nat
  isCatch : Bool
  suppresses : Bool
deriving DecidableEq, Repr

/-- `max_retries` discovery (runtime.py lines 1054-1057): the last
`RetryDecorator`'s `times` wins; without one, `max_retries = 0`. -/
def maxRetriesOf (decos : List DecoModel) : Nat :=
  decos.foldl (fun acc d => match d.retryTimes with | some n => n | none => acc) 0

/-- Whether the reversed `task_exception` scan finds a hook returning `True`
(order is irrelevant to the boolean outcome). -/
def anySuppresses (decos : List DecoModel) : Bool := decos.any (·.suppresses)

/-- `any(isinstance(d, CatchDecorator) for d in decorators)`. -/
def hasCatchDeco (decos : List DecoModel) : Bool := decos.any (·.isCatch)

/-- The observable effects of one `_execute_task` call: `attempt` metadata
values registered in order, the `task_ok` flags passed to the
`_save_task_results` calls in order (the persisted `_task_ok` artifact is
the flag of the last such call), whether the call re-raised, and the
`taken_branch` it reports to the scheduler. -/
structure TaskExecTrace where
  attempts : List Nat
  savedOks : List Bool
  raisedExc : Bool
  takenBranch : Option String
deriving DecidableEq, Repr

/-- `Runtime._execute_task` after the setup phase (runtime.py lines
1098-1452): run the attempt loop, then dispatch on how it ended.  A
successful attempt reaches the final `_save_task_results(success=True)`.  An
exception on the final attempt consults the `task_exception` hooks: if one
suppresses, the task falls through to `_save_task_results(success=True)`;
otherwise `_save_task_results(success=False)` runs and the exception is
re-raised.  A signal kill after all retries takes the fallback: with a
`@catch` present and the task not a non-control parallel worker, a fallback
`attempt` entry `max_retries + 1` is registered and the hooks run as above;
a non-control parallel worker saves failure and returns without raising;
`isParNonControl` is `parallel_index is not None and parallel_index != 0`
(runtime.py lines 1378-1380); otherwise failure is saved and a terminal
error raised. -/
def isParNonControl (pidx : Option Nat) : Bool :=
  match pidx with | some i => decide (i ≠ 0) | none => false

def execute_task_model (decos : List DecoModel) (outcomes : Nat → ChildOutcome)
    (parallelIndex : Option Nat) : TaskExecTrace :=
  let maxR := maxRetriesOf decos
  let lo := runLoop outcomes maxR
  match lo.exit with
  | .success tb => ⟨lo.attemptsMeta, [true], false, tb⟩
  | .excFinal =>
    if anySuppresses decos then ⟨lo.attemptsMeta, [true], false, none⟩
    else ⟨lo.attemptsMeta, [false], true, none⟩
  | .signalExit _sig =>
    if hasCatchDeco decos && !isParNonControl parallelIndex then
      if anySuppresses decos then ⟨lo.attemptsMeta ++ [maxR + 1], [true], false, none⟩
      else ⟨lo.attemptsMeta ++ [maxR + 1], [false], true, none⟩
    else if isParNonControl parallelIndex then ⟨lo.attemptsMeta, [false], false, none⟩
    else ⟨lo.attemptsMeta, [false], true, none⟩

/-! ## Matching-join resolution (src/metaflow/graph.py lines 161-194)

A graph node carries the fields the walk and the scheduler read.  The node
`type` is the string the source uses.  `takes_inputs` models a step function
whose signature has a second positional parameter (`(self, inputs)`). -/

/-- A `DAGNode`, restricted to the fields the modelled code reads. -/
structure GNode where
  name : String
  type : String
  out_funcs : List String
  in_funcs : List String := []
  foreach_param : Option String := none
  matching_join : Option String := none
  takes_inputs : Bool := false
deriving DecidableEq, Repr

/-- `self._nodes.get(name)` on the node list. -/
def graphFind (g : List GNode) (n : String) : Option GNode :=
  g.find? (fun nd => nd.name == n)

/-- `cn.type in ("foreach", "split-and", "split-or")`. -/
def isSplitType (t : String) : Bool :=
  t == "foreach" || t == "split-and" || t == "split-or"

/-- The advance step at the bottom of the walk loop (graph.py lines 186-194):
follow `out_funcs[0]`; if that is already visited and the node has several
out-edges, take its first unvisited alternative out-edge instead. -/
def fmjAdvance (g : List GNode) (visited : List String) (cn : GNode) :
    Option String :=
  match cn.out_funcs.head? with
  | none => none
  | some nxt =>
    if visited.contains nxt then
      match graphFind g nxt with
      | some cn2 =>
        if cn2.out_funcs.length > 1 then
          match (cn2.out_funcs.drop 1).find? (fun alt => !visited.contains alt) with
          | some alt => some alt
          | none => some nxt
        else some nxt
      | none => some nxt
    else some nxt

/-- The `while current_name and current_name not in visited` walk (graph.py
lines 171-194).  The depth counter starts at `1` at the split; a nested split
increments it, unless it is a self-referencing switch (a loop, not a nested
split); a join decrements it, and the first join that brings it to `0` is the
matching join.  An exhausted walk (no current node, an already-visited node,
or a name missing from the graph) ends without assigning — the source raises
nothing in that case.  The fuel only bounds the recursion; `visited` grows by
one known-in-graph name per iteration, so `g.length + 1` never runs out. -/
def fmjBody (g : List GNode) (rec : Option String → Int → List String → Option String)
    (current : Option String) (depth : Int) (visited : List String) :
    Option String :=
  match current with
  | none => none
  | some c =>
    if visited.contains c then none
    else
      let visited2 := visited ++ [c]
      match graphFind g c with
      | none => none
      | some cn =>
        if isSplitType cn.type then
          let depth2 :=
            if cn.type == "split-or" && cn.out_funcs.contains cn.name then depth
            else depth + 1
          rec (fmjAdvance g visited2 cn) depth2 visited2
        else if cn.type == "join" then
          if depth - 1 = 0 then some c
          else rec (fmjAdvance g visited2 cn) (depth - 1) visited2
        else rec (fmjAdvance g visited2 cn) depth visited2

/-- The fuelled walk loop. -/
def fmjGo (g : List GNode) : Nat → Option String → Int → List String → Option String
  | 0, _, _, _ => none
  | fuel + 1, current, depth, visited =>
    fmjBody g (fmjGo g fuel) current depth visited

/-- The per-split walk set-up (graph.py lines 163-170): start from the first
out-edge, skipping it for the second one when it is the split itself
(recursive switch), with `depth = 1` and the split pre-visited. -/
def find_matching_join (g : List GNode) (n : GNode) : Option String :=
  let c0 :=
    match n.out_funcs.head? with
    | some c => if c = n.name then (n.out_funcs.drop 1).head? else some c
    | none => none
  fmjGo g (g.length + 1) c0 1 [n.name]

/-- The `matching_join` assignment pass over all nodes (graph.py lines
161-194): every split-typed node gets the walk's result; the pass always
completes — the source has no failure path here, and no `UnreachableJoin`
error exists anywhere in the code base. -/
def assign_matching_joins (g : List GNode) : List GNode :=
  g.map fun n =>
    if isSplitType n.type then { n with matching_join := find_matching_join g n }
    else n

/-! ## The runtime scheduler (src/metaflow/runtime.py `Runtime.execute`)

A functional model of the scheduler walk for switch-free, non-parallel,
non-resumed flows whose foreach inner chains consist of linear steps — the
shape every boundary-behaviour claim about foreach uses.  Task execution is
abstracted to "run the step body on the loaded flow state and persist the
result" (always successfully; the fault-tolerance loop is modelled
separately by `execute_task_model`); metadata registration other than
`new_step` is omitted.  The graph list is assumed to be in the topological
order produced by `FlowGraph.__iter__`. -/

/-- A runtime artifact value: integers, lists of integers (foreach sources),
booleans, strings, and persisted foreach stacks. -/
inductive RVal where
  | rint (n : Int)
  | rlist (l : List Int)
  | rbool (b : Bool)
  | rstr (s : String)
  | rstack (s : List ForeachFrame)
deriving DecidableEq, Repr

/-- The per-task flow instance: artifact dictionary, live foreach stack, and
the `input`/`index` context. -/
structure CFlow where
  artifacts : List (String × RVal)
  foreachStack : List ForeachFrame
  input : Option Int
  index : Option Nat
deriving DecidableEq, Repr

/-- `load_parent_state` on runtime values (flowspec.py lines 150-157), from a
fresh instance: non-underscore keys are copied; `_foreach_stack` is consumed
(frames are stored normalised, so `_ensure_foreach_frames` is the
identity). -/
def rLoadParent (parent : List (String × RVal)) : CFlow :=
  parent.foldl
    (fun fl kv =>
      if ¬ str_startswith kv.1 "_" then { fl with artifacts := dictSet fl.artifacts kv.1 kv.2 }
      else if kv.1 = "_foreach_stack" then
        match kv.2 with
        | .rstack s => { fl with foreachStack := s }
        | _ => fl
      else fl)
    ⟨[], [], none, none⟩

/-- The scheduler state: the task-id counter, `_step_results`
(step name → ordered `(task_id, artifacts)` list), `_executed_steps`, the
`metadata.new_step` log, and a log of `len(inputs_list)` for each executed
join (the size of the `Inputs` view the join step received). -/
structure RTState where
  taskCounter : Nat
  stepResults : List (String × List (Nat × List (String × RVal)))
  executedSteps : List String
  newSteps : List String
  joinInputLog : List (String × Nat)
deriving DecidableEq, Repr

/-- `step_name in self._step_results` / `self._step_results.get(step_name)`. -/
def srLookup (st : RTState) (s : String) :
    Option (List (Nat × List (String × RVal))) :=
  st.stepResults.lookup s

/-- `self._step_results.get(step_name, [])`. -/
def srGetD (st : RTState) (s : String) : List (Nat × List (String × RVal)) :=
  (srLookup st s).getD []

/-- `self._step_results[step_name] = l`. -/
def srSet (st : RTState) (s : String) (l : List (Nat × List (String × RVal))) :
    RTState :=
  { st with stepResults := dictSet st.stepResults s l }

/-- `_save_task_results`' bookkeeping: create the key if absent and append
the new `(task_id, artifacts)` entry. -/
def srAppend (st : RTState) (s : String) (e : Nat × List (String × RVal)) :
    RTState :=
  srSet st s (srGetD st s ++ [e])

/-- `self._executed_steps.add(s)`. -/
def addExecuted (st : RTState) (s : String) : RTState :=
  if st.executedSteps.contains s then st
  else { st with executedSteps := st.executedSteps ++ [s] }

/-- `new_step` registration inside the foreach routine: only for steps not
yet present in `_step_results`, which are then initialised to `[]`. -/
def registerStep (st : RTState) (s : String) : RTState :=
  if (srLookup st s).isNone then
    srSet { st with newSteps := st.newSteps ++ [s] } s []
  else st

/-- A family of user step bodies: step name, the loaded flow state, and the
join `inputs` (artifact dictionaries of the contributing predecessor tasks;
`[]` for non-join steps) to the resulting flow state. -/
def StepBody : Type := String → CFlow → List (List (String × RVal)) → CFlow

/-- `get_persistable_state(task_ok=True)` (flowspec.py lines 159-164): the
artifact dictionary plus `_task_ok` and the serialised `_foreach_stack`. -/
def persistable (fl : CFlow) : List (String × RVal) :=
  dictSet (dictSet fl.artifacts "_task_ok" (.rbool true)) "_foreach_stack"
    (.rstack fl.foreachStack)

/-- `Runtime._execute_task`, abstracted to its data flow (runtime.py lines
981-1452): allocate the next task id, build the flow from the parent
artifacts, set the foreach `input`/`index`/stack context (an explicit
foreach context overrides; otherwise a non-empty loaded stack supplies
`input`/`index` from its last frame), run the body, persist, and append the
result to `_step_results`. -/
def exec_task (bodies : StepBody) (st : RTState) (stepName : String)
    (parentArts : List (String × RVal))
    (inputs : Option (List (List (String × RVal))))
    (fctx : Option (Int × Nat × List ForeachFrame)) : RTState :=
  let tid := st.taskCounter + 1
  let st := { st with taskCounter := tid }
  let fl := rLoadParent parentArts
  let fl :=
    match fctx with
    | some (v, i, stk) => { fl with input := some v, index := some i, foreachStack := stk }
    | none =>
      match fl.foreachStack.getLast? with
      | some fr => { fl with input := some fr.value, index := some fr.index }
      | none => fl
  let fl2 := bodies stepName fl (inputs.getD [])
  srAppend st stepName (tid, persistable fl2)

/-- `Runtime._get_parent_artifacts` (runtime.py lines 406-419): the last
result of the first in-edge that has a non-empty results list, else `{}`. -/
def get_parent_artifacts (st : RTState) (node : GNode) :
    List (String × RVal) :=
  if node.name = "start" ∨ node.in_funcs = [] then []
  else
    match node.in_funcs.find? (fun p => !(srGetD st p).isEmpty) with
    | some p => ((srGetD st p).getLast?.map (·.2)).getD []
    | none => []

/-- `Runtime._execute_linear_step` (runtime.py lines 445-454). -/
def exec_linear_step (bodies : StepBody) (st : RTState) (node : GNode) :
    RTState :=
  exec_task bodies st node.name (get_parent_artifacts st node) none none

/-- `Runtime._execute_join_step` (runtime.py lines 957-979): one input per
result of every in-edge present in `_step_results`, in order; the join task
runs with those inputs and no parent artifacts. -/
def exec_join_step (bodies : StepBody) (st : RTState) (node : GNode) :
    RTState :=
  let inputsList := node.in_funcs.flatMap (fun p => (srGetD st p).map (·.2))
  let st := { st with joinInputLog := st.joinInputLog ++ [(node.name, inputsList.length)] }
  exec_task bodies st node.name [] (some inputsList) none

/-- The BFS of `Runtime._collect_inner_steps` (runtime.py lines 560-578):
visit from the split's first out-edge, never crossing the join, collecting
names in visit order.  The fuel bounds queue processing; `cisFuel` exceeds
the total number of possible enqueues. -/
def collect_inner_go (g : List GNode) (joinName : Option String) :
    Nat → List String → List String → List String
  | 0, _, visited => visited
  | _ + 1, [], visited => visited
  | fuel + 1, name :: queue, visited =>
    if visited.contains name || joinName == some name then
      collect_inner_go g joinName fuel queue visited
    else
      let visited2 := visited ++ [name]
      match graphFind g name with
      | none => collect_inner_go g joinName fuel queue visited2
      | some cn =>
        let adds := cn.out_funcs.filter
          (fun o => !visited2.contains o && !(joinName == some o))
        collect_inner_go g joinName fuel (queue ++ adds) visited2

/-- An upper bound on the number of BFS queue pops. -/
def cisFuel (g : List GNode) : Nat :=
  g.foldl (fun a n => a + n.out_funcs.length) (g.length + 1)

/-- `Runtime._collect_inner_steps(start_name, join_name)`. -/
def collect_inner_steps (g : List GNode) (startName : String)
    (joinName : Option String) : List String :=
  collect_inner_go g joinName (cisFuel g) [startName] []

/-- `Runtime._execute_inner_chain` (runtime.py lines 580-681) restricted to
chains of linear steps (the model's scope): execute each inner step with the
current parent artifacts and the foreach context, then carry the produced
artifacts forward as the next step's parent. -/
def exec_inner_chain (g : List GNode) (bodies : StepBody) :
    List String → RTState → List (String × RVal) → Int → Nat →
      List ForeachFrame → RTState
  | [], st, _, _, _, _ => st
  | nameS :: rest, st, parentArts, finput, fidx, fstack =>
    match graphFind g nameS with
    | none => exec_inner_chain g bodies rest st parentArts finput fidx fstack
    | some _ =>
      let st2 := exec_task bodies st nameS parentArts none (some (finput, fidx, fstack))
      let newArts := ((srGetD st2 nameS).getLast?.map (·.2)).getD parentArts
      exec_inner_chain g bodies rest st2 newArts finput fidx fstack

/-- `Runtime._execute_foreach_split_and_chain` (runtime.py lines 456-558),
top-level call (no resume, no overrides): execute the split and mark it
executed; read the foreach list from the split's artifacts (`.get(var, [])`);
*return immediately when the list is empty or the split has no out-edges* —
before the inner steps are registered and before the join runs.  Otherwise:
register the inner steps, snapshot and clear their results (scope
isolation), run one inner chain per item with the pushed foreach frame,
mark the inner steps executed, execute the matching join on the scoped
results, and restore the snapshots in front of this scope's results.
(Unbounded-foreach control tasks are outside this model: foreach sources
here are plain lists.) -/
def exec_foreach (g : List GNode) (bodies : StepBody) (st : RTState)
    (node : GNode) : RTState :=
  let st := if (srLookup st node.name).isNone then srSet st node.name [] else st
  let st := exec_task bodies st node.name (get_parent_artifacts st node) none none
  let st := addExecuted st node.name
  match (srGetD st node.name).getLast? with
  | none => st
  | some (_, splitArts) =>
    let items : List Int :=
      match splitArts.lookup (node.foreach_param.getD "") with
      | some (.rlist l) => l
      | _ => []
    if items.isEmpty || node.out_funcs.isEmpty then st
    else
      let joinName := node.matching_join
      let innerSteps := collect_inner_steps g (node.out_funcs.headD "") joinName
      let st := innerSteps.foldl registerStep st
      let numSplits := items.length
      let saved := innerSteps.map (fun s => (s, srGetD st s))
      let st := innerSteps.foldl (fun st s => srSet st s []) st
      let splitStack :=
        match splitArts.lookup "_foreach_stack" with
        | some (.rstack l) => l
        | _ => []
      let st := items.enum.foldl
        (fun st p =>
          let frame : ForeachFrame :=
            ⟨node.name, node.foreach_param.getD "", p.1, p.2, some numSplits⟩
          let parentArts :=
            dictSet splitArts "_foreach_stack" (.rstack (splitStack ++ [frame]))
          exec_inner_chain g bodies innerSteps st parentArts p.2 p.1
            (splitStack ++ [frame]))
        st
      let st := innerSteps.foldl addExecuted st
      let st :=
        match joinName with
        | some j =>
          match graphFind g j with
          | some jn => addExecuted (exec_join_step bodies (registerStep st j) jn) j
          | none => st
        | none => st
      saved.foldl (fun st p => srSet st p.1 (p.2 ++ srGetD st p.1)) st

/-- The per-node dispatch of `Runtime.execute` (runtime.py lines 263-291),
for switch-free, non-parallel flows: a foreach split with a `foreach_param`
takes the foreach routine; a node typed `join` — or with several in-edges —
is executed as a join unless exactly one in-edge has results and the step
function does not take an `inputs` parameter (post-switch merge), in which
case it runs as a linear step; everything else runs as a linear step. -/
def sched_dispatch (g : List GNode) (bodies : StepBody) (st : RTState)
    (node : GNode) : RTState :=
  if node.type == "foreach" && node.foreach_param.isSome then
    exec_foreach g bodies st node
  else if node.type == "foreach" then
    exec_linear_step bodies st node
  else if node.type == "join" || node.in_funcs.length > 1 then
    let executedParents := node.in_funcs.filter (fun p => (srLookup st p).isSome)
    if executedParents.length = 1 && !node.takes_inputs then
      exec_linear_step bodies st node
    else exec_join_step bodies st node
  else exec_linear_step bodies st node

/-- The topological walk of `Runtime.execute` (runtime.py lines 218-293):
skip steps already executed (e.g. as part of a foreach chain), register the
step, dispatch, and mark it executed. -/
def sched_go (g : List GNode) (bodies : StepBody) :
    List GNode → RTState → RTState
  | [], st => st
  | node :: rest, st =>
    if st.executedSteps.contains node.name then sched_go g bodies rest st
    else
      let st := { st with newSteps := st.newSteps ++ [node.name] }
      let st := sched_dispatch g bodies st node
      let st := addExecuted st node.name
      sched_go g bodies rest st

/-- One full scheduler run over a graph given in topological order. -/
def run_scheduler (g : List GNode) (bodies : StepBody) : RTState :=
  sched_go g bodies g ⟨0, [], [], [], []⟩

/-! ### The empty-foreach boundary flow

`start` declares `xs` and `next(worker, foreach="xs")`; `worker → join`;
`join(self, inputs) → end`.  Node types are as `FlowGraph._build_graph` and
`_parse_transitions` produce them: `start` is re-typed `foreach` by its
`foreach=` keyword; `join` takes a second positional parameter. -/

/-- The analysed graph of the foreach flow, in topological order. -/
def foreachGraph : List GNode :=
  [{ name := "start", type := "foreach", out_funcs := ["worker"],
     foreach_param := some "xs", matching_join := some "join" },
   { name := "worker", type := "linear", out_funcs := ["join"],
     in_funcs := ["start"] },
   { name := "join", type := "join", out_funcs := ["end"],
     in_funcs := ["worker"], takes_inputs := true },
   { name := "end", type := "end", out_funcs := [],
     in_funcs := ["join"] }]

/-- The step bodies of the foreach flow, parametrised by the foreach source
list: `start` sets `xs`; `worker` sets `y = self.input * 2`; `join` collects
the `y` values of its inputs into `ys`. -/
def foreachBodies (xs : List Int) : StepBody := fun step fl inputs =>
  if step = "start" then { fl with artifacts := dictSet fl.artifacts "xs" (.rlist xs) }
  else if step = "worker" then
    { fl with artifacts := dictSet fl.artifacts "y" (.rint (2 * fl.input.getD 0)) }
  else if step = "join" then
    let ys : List Int := inputs.filterMap fun a =>
      match a.lookup "y" with | some (.rint n) => some n | _ => none
    { fl with artifacts := dictSet fl.artifacts "ys" (.rlist ys) }
  else fl

/-- The scheduler run on the foreach flow with an *empty* foreach list. -/
def emptyForeachRun : RTState := run_scheduler foreachGraph (foreachBodies [])

/-! ## Dictionary lemmas -/

section DictLemmas

variable {β : Type}

theorem lookup_cons (k k1 : String) (v1 : β) (tl : List (String × β)) :
    ((k1, v1) :: tl).lookup k = if k = k1 then some v1 else tl.lookup k := by
  by_cases h : k = k1
  · simp [List.lookup, h]
  · simp [List.lookup, h, beq_eq_false_iff_ne.mpr h]

theorem lookup_append_of_none (l₁ l₂ : List (String × β)) (k : String)
    (h : l₁.lookup k = none) : (l₁ ++ l₂).lookup k = l₂.lookup k := by
  induction l₁ with
  | nil => rfl
  | cons hd tl ih =>
    obtain ⟨k1, v1⟩ := hd
    rw [List.cons_append, lookup_cons]
    rw [lookup_cons] at h
    by_cases hk : k = k1
    · simp [hk] at h
    · rw [if_neg hk] at h ⊢
      exact ih h

theorem lookup_append_left (l₁ l₂ : List (String × β)) (k : String)
    (h : (l₁.lookup k).isSome) : (l₁ ++ l₂).lookup k = l₁.lookup k := by
  induction l₁ with
  | nil => simp at h
  | cons hd tl ih =>
    obtain ⟨k1, v1⟩ := hd
    rw [List.cons_append, lookup_cons, lookup_cons]
    rw [lookup_cons] at h
    by_cases hk : k = k1
    · simp [hk]
    · rw [if_neg hk] at h
      rw [if_neg hk, if_neg hk]
      exact ih h

theorem lookup_eq_none_iff (m : List (String × β)) (k : String) :
    m.lookup k = none ↔ k ∉ m.map Prod.fst := by
  induction m with
  | nil => simp
  | cons hd tl ih =>
    obtain ⟨k1, v1⟩ := hd
    rw [lookup_cons]
    by_cases hk : k = k1
    · simp [hk]
    · simp [hk, ih]

theorem mem_of_lookup_eq_some {m : List (String × β)} {k : String} {v : β}
    (h : m.lookup k = some v) : (k, v) ∈ m := by
  induction m with
  | nil => simp [List.lookup] at h
  | cons hd tl ih =>
    obtain ⟨k1, v1⟩ := hd
    rw [lookup_cons] at h
    by_cases hk : k = k1
    · rw [if_pos hk] at h
      obtain rfl : v1 = v := by injection h
      subst hk
      exact List.mem_cons_self _ _
    · rw [if_neg hk] at h
      exact List.mem_cons_of_mem _ (ih h)

theorem lookup_of_mem_nodup {m : List (String × β)} {k : String} {v : β}
    (hm : (k, v) ∈ m) (hnd : (m.map Prod.fst).Nodup) : m.lookup k = some v := by
  induction m with
  | nil => simp at hm
  | cons hd tl ih =>
    obtain ⟨k1, v1⟩ := hd
    simp only [List.map_cons, List.nodup_cons] at hnd
    rw [lookup_cons]
    rcases List.mem_cons.mp hm with heq | htl
    · obtain ⟨rfl, rfl⟩ := Prod.mk.injEq .. ▸ heq
      · simp
    · have hk : k ≠ k1 := by
        rintro rfl
        exact hnd.1 (List.mem_map.mpr ⟨(k, v), htl, rfl⟩)
      rw [if_neg hk]
      exact ih htl hnd.2

theorem lookup_map_overwrite (m : List (String × β)) (k : String) (v : β)
    (n : String) :
    ((m.map (fun kv => if kv.1 = k then (k, v) else kv)).lookup n)
      = if n = k then (if (m.lookup k).isSome then some v else none)
        else m.lookup n := by
  induction m with
  | nil => simp [List.lookup]
  | cons hd tl ih =>
    obtain ⟨k1, v1⟩ := hd
    by_cases hhd : k1 = k
    · subst hhd
      by_cases hn : n = k1
      · subst hn
        simp [List.map_cons, lookup_cons]
      · simp [List.map_cons, lookup_cons, hn, ih]
    · by_cases hn1 : n = k1
      · have hn : n ≠ k := fun hc => hhd (by rw [← hn1, hc])
        subst hn1
        simp [List.map_cons, lookup_cons, hhd, hn]
      · by_cases hn : n = k
        · subst hn
          simp [List.map_cons, lookup_cons, hhd, hn1, ih]
          rw [lookup_cons, if_neg hn1]
        · simp [List.map_cons, lookup_cons, hhd, hn1, hn, ih]

theorem dictSet_lookup (m : List (String × β)) (k : String) (v : β)
    (n : String) :
    (dictSet m k v).lookup n = if n = k then some v else m.lookup n := by
  unfold dictSet
  cases h : (m.lookup k).isSome with
  | true => simp only [if_true, lookup_map_overwrite, h]
  | false =>
    simp only [Bool.false_eq_true, if_false]
    have hnone : m.lookup k = none := by
      cases hm : m.lookup k with
      | none => rfl
      | some w => rw [hm] at h; simp at h
    by_cases hn : n = k
    · subst hn
      rw [lookup_append_of_none _ _ _ hnone, lookup_cons]
      simp
    · cases hm : m.lookup n with
      | some w =>
        rw [lookup_append_left _ _ _ (by simp [hm]), hm, if_neg hn]
      | none =>
        rw [lookup_append_of_none _ _ _ hm, lookup_cons]
        simp [hn, hm]

theorem dictSet_of_lookup_none (m : List (String × β)) (k : String) (v : β)
    (h : m.lookup k = none) : dictSet m k v = m ++ [(k, v)] := by
  unfold dictSet
  simp [h]

end DictLemmas

/-! ## Claims C9 and C10 -/

/-- C9: for every dict-mode switch transition, when the string form of the
condition value is not a key of the declared dict, `resolve_switch_target`
returns the string form of the condition value itself (even though it was
never declared as a target) rather than failing or returning no target. -/
theorem C9_dict_switch_miss (d : List (String × PyObj))
    (fv cvar : Option String) (cv : PyObj)
    (h : d.lookup (pyStr cv) = none) :
    Transition.resolve_switch_target ⟨.dictTargets d, fv, cvar⟩ cv
      = some (pyStr cv) := by
  unfold Transition.resolve_switch_target
  simp [h]

/-- C9 witness: condition value `"zzz"` against a dict declaring only key
`"a"` resolves to the undeclared step name `"zzz"`. -/
theorem C9_witness :
    [("a", PyObj.funcRef "step_a")].lookup (pyStr (PyObj.strVal "zzz")) = none ∧
    Transition.resolve_switch_target
        ⟨.dictTargets [("a", PyObj.funcRef "step_a")], none, some "pick"⟩
        (PyObj.strVal "zzz") = some "zzz" :=
  ⟨by decide, C9_dict_switch_miss _ none (some "pick") _ (by decide)⟩

theorem load_parent_from_artifacts (l : List (String × AVal)) (st : FlowState)
    (h : ∀ kv ∈ l, st.artifacts.lookup kv.1 = none)
    (hnd : (l.map Prod.fst).Nodup) :
    (load_parent_from st l).artifacts
      = st.artifacts ++ l.filter (fun kv => !str_startswith kv.1 "_") := by
  induction l generalizing st with
  | nil => simp [load_parent_from]
  | cons hd tl ih =>
    obtain ⟨k, v⟩ := hd
    simp only [List.map_cons, List.nodup_cons] at hnd
    have hk : st.artifacts.lookup k = none := h (k, v) (List.mem_cons_self _ _)
    simp only [load_parent_from]
    by_cases hu : str_startswith k "_"
    · have hstep : (load_parent_step st k v).artifacts = st.artifacts := by
        unfold load_parent_step
        simp only [hu, not_true_eq_false, if_false]
        by_cases hfs : k = "_foreach_stack"
        · simp only [hfs, if_true]
          cases v <;> rfl
        · simp [hfs]
      have hstep2 : (load_parent_step st k v).foreachStack = (load_parent_step st k v).foreachStack := rfl
      have htl : ∀ kv ∈ tl, (load_parent_step st k v).artifacts.lookup kv.1 = none := by
        intro kv hkv
        rw [hstep]
        exact h kv (List.mem_cons_of_mem _ hkv)
      rw [ih _ htl hnd.2, hstep]
      simp [List.filter_cons, hu]
    · have hstep : (load_parent_step st k v).artifacts = st.artifacts ++ [(k, v)] := by
        unfold load_parent_step
        rw [if_pos hu, dictSet_of_lookup_none _ _ _ hk]
      have htl : ∀ kv ∈ tl, (load_parent_step st k v).artifacts.lookup kv.1 = none := by
        intro kv hkv
        rw [hstep]
        have hne : kv.1 ≠ k := by
          intro hc
          exact hnd.1 (hc ▸ List.mem_map.mpr ⟨kv, hkv, rfl⟩)
        rw [lookup_append_of_none _ _ _ (h kv (List.mem_cons_of_mem _ hkv)),
          lookup_cons, if_neg hne]
        rfl
      rw [ih _ htl hnd.2, hstep]
      simp [List.filter_cons, hu]

theorem load_parent_step_stack_of_ne (st : FlowState) (k : String) (v : AVal)
    (hk : k ≠ "_foreach_stack") :
    (load_parent_step st k v).foreachStack = st.foreachStack := by
  unfold load_parent_step
  by_cases hu : str_startswith k "_" <;> simp [hu, hk]

theorem load_parent_from_stack_none (l : List (String × AVal)) (st : FlowState)
    (h : l.lookup "_foreach_stack" = none) :
    (load_parent_from st l).foreachStack = st.foreachStack := by
  induction l generalizing st with
  | nil => rfl
  | cons hd tl ih =>
    obtain ⟨k, v⟩ := hd
    rw [lookup_cons] at h
    by_cases hk : "_foreach_stack" = k
    · simp [hk] at h
    · rw [if_neg hk] at h
      simp only [load_parent_from]
      rw [ih _ h, load_parent_step_stack_of_ne _ _ _ (fun hc => hk hc.symm)]

theorem load_parent_from_stack (l : List (String × AVal)) (st : FlowState)
    (hnd : (l.map Prod.fst).Nodup) :
    (load_parent_from st l).foreachStack =
      (match l.lookup "_foreach_stack" with
       | some (.astack s) => ensure_foreach_frames s
       | some _ => st.foreachStack
       | none => st.foreachStack) := by
  induction l generalizing st with
  | nil => rfl
  | cons hd tl ih =>
    obtain ⟨k, v⟩ := hd
    simp only [List.map_cons, List.nodup_cons] at hnd
    by_cases hk : k = "_foreach_stack"
    · subst hk
      have htl : tl.lookup "_foreach_stack" = none :=
        (lookup_eq_none_iff _ _).mpr hnd.1
      simp only [load_parent_from]
      rw [load_parent_from_stack_none tl _ htl, lookup_cons, if_pos rfl]
      unfold load_parent_step
      have hs : str_startswith "_foreach_stack" "_" = true := by decide
      cases v <;> simp [hs]
    · simp only [load_parent_from]
      rw [ih _ hnd.2, load_parent_step_stack_of_ne _ _ _ hk, lookup_cons,
        if_neg (fun hc => hk hc.symm)]

/-- C10: `load_parent_state` copies exactly the non-underscore-prefixed keys
of the parent artifact map into the child's artifact map; of the
underscore-prefixed keys only `_foreach_stack` is consumed, into the foreach
stack; hence no underscore-prefixed artifact — in particular `_task_ok`,
`_exception`, or any `_card_*` — ever appears in a child task's starting
artifact map. -/
theorem C10_load_parent_state (parent : List (String × AVal))
    (hnd : (parent.map Prod.fst).Nodup) :
    (load_parent_state parent).artifacts
        = parent.filter (fun kv => !str_startswith kv.1 "_") ∧
    (load_parent_state parent).foreachStack
        = (match parent.lookup "_foreach_stack" with
           | some (.astack s) => ensure_foreach_frames s
           | some _ => []
           | none => []) ∧
    ∀ k, str_startswith k "_" → (load_parent_state parent).artifacts.lookup k = none := by
  have h1 := load_parent_from_artifacts parent ⟨[], []⟩ (by intro kv _; rfl) hnd
  have h2 := load_parent_from_stack parent ⟨[], []⟩ hnd
  have h1' : (load_parent_state parent).artifacts
      = parent.filter (fun kv => !str_startswith kv.1 "_") := by
    simpa [load_parent_state] using h1
  refine ⟨h1', by simpa [load_parent_state] using h2, ?_⟩
  intro k hk
  rw [h1', lookup_eq_none_iff]
  intro hmem
  obtain ⟨kv, hkv, rfl⟩ := List.mem_map.mp hmem
  have hf := List.of_mem_filter hkv
  simp [hk] at hf

/-- C10 witness: a parent map holding a user artifact, `_task_ok`,
`_exception`, a `_card_*` blob and a `_foreach_stack`: only the user
artifact is copied, the stack is extracted, and `_task_ok` is absent. -/
theorem C10_witness :
    (load_parent_state
        [("x", AVal.aint 1), ("_task_ok", AVal.abool true),
         ("_exception", AVal.awrapper), ("_card_default_0", AVal.astr "html"),
         ("_foreach_stack", AVal.astack [.tup5 "start" "xs" 0 7 3])]).artifacts
      = [("x", AVal.aint 1)] ∧
    (load_parent_state
        [("x", AVal.aint 1), ("_task_ok", AVal.abool true),
         ("_exception", AVal.awrapper), ("_card_default_0", AVal.astr "html"),
         ("_foreach_stack", AVal.astack [.tup5 "start" "xs" 0 7 3])]).foreachStack
      = [⟨"start", "xs", 0, 7, some 3⟩] ∧
    (load_parent_state
        [("x", AVal.aint 1), ("_task_ok", AVal.abool true),
         ("_exception", AVal.awrapper), ("_card_default_0", AVal.astr "html"),
         ("_foreach_stack", AVal.astack [.tup5 "start" "xs" 0 7 3])]).artifacts.lookup "_task_ok"
      = none := by
  have h := C10_load_parent_state
    [("x", AVal.aint 1), ("_task_ok", AVal.abool true),
     ("_exception", AVal.awrapper), ("_card_default_0", AVal.astr "html"),
     ("_foreach_stack", AVal.astack [.tup5 "start" "xs" 0 7 3])] (by decide)
  exact ⟨by rw [h.1]; rfl, by rw [h.2.1]; rfl, h.2.2 "_task_ok" (by decide)⟩

/-! ## Claims C8, C7, C4 -/

/-- The payload of a non-raising call, `none` when the call raised. -/
def exceptOk {ε α : Type} : Except ε α → Option α
  | .ok a => some a
  | .error _ => none

/-- C8 (amended): `add_tag` raises `InvalidTag` exactly when the tag argument
is not a string, is empty, or is longer than 512 *characters* (code points —
the source checks `len(tag) > 512`, not the UTF-8 byte length the
specification names); and `remove_tag` on a tag present in the system tag
set always raises. -/
theorem C8_tag_validation (m : RunMeta) (t : TagArg) :
    (isErr (add_tag m t) = true ↔
      (t = .nonStr ∨ ∃ s, t = .str s ∧ (s.length = 0 ∨ 512 < s.length))) ∧
    ∀ s, s ∈ m.sys_tags → isErr (remove_tag m (.str s)) = true := by
  constructor
  · cases t with
    | nonStr => simp [add_tag, validate_tag, isErr]
    | str s =>
      by_cases h0 : s.length = 0
      · simp [add_tag, validate_tag, isErr, h0]
      · by_cases h5 : 512 < s.length
        · simp [add_tag, validate_tag, isErr, h0, h5]
        · by_cases hsys : s ∈ m.sys_tags <;>
            simp [add_tag, validate_tag, isErr, h0, h5, hsys]
  · intro s hs
    simp [remove_tag, isErr, hs]

set_option maxRecDepth 8192 in
/-- C8 counterexample: a tag of 257 two-byte characters is 514 UTF-8 bytes —
beyond the 512-byte bound the claim states — yet `add_tag` accepts it
without error, because the source bounds the character count instead. -/
theorem C8_counterexample :
    isErr (add_tag ⟨∅, ∅⟩ (.str (String.mk (List.replicate 257 'é')))) = false ∧
    512 < (String.mk (List.replicate 257 'é')).utf8ByteSize ∧
    (String.mk (List.replicate 257 'é')).length ≤ 512 ∧
    (String.mk (List.replicate 257 'é')) ≠ "" := by
  refine ⟨by decide, by decide, by decide, by decide⟩

/-- C8 witness: the empty tag is rejected, and removing the system tag
`user:alice` raises. -/
theorem C8_witness :
    isErr (add_tag ⟨∅, ∅⟩ (.str "")) = true ∧
    isErr (remove_tag ⟨∅, {"user:alice"}⟩ (.str "user:alice")) = true :=
  ⟨(C8_tag_validation ⟨∅, ∅⟩ (.str "")).1.mpr (Or.inr ⟨"", rfl, Or.inl rfl⟩),
   (C8_tag_validation ⟨∅, {"user:alice"}⟩ (.str "x")).2 "user:alice" (by decide)⟩

/-- C7 (code bug): `replace_tags` does not filter the added tags against the
system tags: on a run whose only system tag is `user:alice`,
`replace_tags(["x"], ["user:alice"])` succeeds and stores `user:alice` as a
*user* tag, so a user tag now equals a system tag — the invariant the
specification states for every sequence of tag operations is violated
(`add_tag`/`add_tags` do silently skip system tags; the replace path is the
slip). -/
theorem C7_replace_tags_sys_collision :
    exceptOk (replace_tags ⟨∅, {"user:alice"}⟩ [.str "x"] ["user:alice"])
      = some ⟨{"user:alice"}, {"user:alice"}⟩ ∧
    "user:alice" ∈ ({"user:alice"} : Finset String) := by
  refine ⟨by decide, by decide⟩

/-- C4 (amended): with a non-null ambient namespace and an existing run,
`Run._check_namespace` and `Task._check_namespace` raise `NamespaceMismatch`
exactly when the run's combined tag set does not contain the namespace;
`Step._check_namespace`, however, raises exactly when the namespace starts
with `user:` *and* is missing — a namespace without the `user:` prefix is
never enforced for `Step` lookups.  A missing run raises for `Run` and is
ignored for `Task` and `Step`. -/
theorem C4_namespace_checks (n : String) (m : RunMeta) :
    (isErr (run_check_namespace (some n) (some m)) = true ↔ n ∉ allTags m) ∧
    isErr (run_check_namespace (some n) none) = true ∧
    (isErr (task_check_namespace (some n) (some m)) = true ↔ n ∉ allTags m) ∧
    isErr (task_check_namespace (some n) none) = false ∧
    (isErr (step_check_namespace (some n) (some m)) = true ↔
      (str_startswith n "user:" = true ∧ n ∉ allTags m)) ∧
    isErr (step_check_namespace (some n) none) = false := by
  refine ⟨?_, rfl, ?_, rfl, ?_, rfl⟩
  · by_cases h : n ∈ allTags m <;> simp [run_check_namespace, isErr, h]
  · by_cases h : n ∈ allTags m <;> by_cases hu : str_startswith n "user:" <;>
      simp [task_check_namespace, isErr, h, hu]
  · by_cases h : n ∈ allTags m <;> by_cases hu : str_startswith n "user:" <;>
      simp [step_check_namespace, isErr, h, hu]

/-- C4 counterexample: the ambient namespace `project:x` is not among the
run's tags, yet a `Step` lookup passes its namespace check without raising —
the claim requires it to fail with `NamespaceMismatch`. -/
theorem C4_counterexample :
    isErr (step_check_namespace (some "project:x") (some ⟨∅, ∅⟩)) = false ∧
    "project:x" ∉ allTags ⟨∅, ∅⟩ := by
  refine ⟨by decide, by decide⟩

/-- C4 witness: a `Run` lookup under namespace `project:x` against a run
without that tag does raise. -/
theorem C4_witness :
    isErr (run_check_namespace (some "project:x") (some ⟨∅, ∅⟩)) = true :=
  (C4_namespace_checks "project:x" ⟨∅, ∅⟩).1.mpr (by decide)

/-! ## Claim C5 -/

theorem fmjGo_some_is_join (g : List GNode) :
    ∀ (fuel : Nat) (c : Option String) (depth : Int) (visited : List String)
      (j : String), fmjGo g fuel c depth visited = some j →
      ∃ cn, graphFind g j = some cn ∧ cn.type = "join" := by
  intro fuel
  induction fuel with
  | zero => intro c depth visited j h; simp [fmjGo] at h
  | succ fuel ih =>
    intro c depth visited j h
    rw [fmjGo] at h
    simp only [fmjBody] at h
    split at h
    · exact absurd h (by simp)
    next cname =>
      split at h
      · exact absurd h (by simp)
      next hcont =>
        split at h
        · exact absurd h (by simp)
        next cn heq =>
          split at h
          · exact ih _ _ _ _ h
          next hns =>
            split at h
            next hj =>
              by_cases hd : depth - 1 = 0
              · rw [if_pos hd] at h
                obtain rfl : cname = j := by injection h
                exact ⟨cn, heq, beq_iff_eq.mp hj⟩
              · rw [if_neg hd] at h
                exact ih _ _ _ _ h
            next hj => exact ih _ _ _ _ h

/-- C5 (amended): for every split node, the matching-join walk assigns as
`matching_join` the first join reached at nesting depth zero *when it finds
one* — the assigned node is always typed `join`; when the walk is exhausted
without reaching such a join, `matching_join` is simply left `None` — the
graph-construction pass completes normally and no `UnreachableJoin` error is
raised (no such error exists anywhere in the code base). -/
theorem C5_matching_join_walk (g : List GNode) (n : GNode) (j : String)
    (h : find_matching_join g n = some j) :
    ∃ cn, graphFind g j = some cn ∧ cn.type = "join" := by
  unfold find_matching_join at h
  exact fmjGo_some_is_join g _ _ _ _ _ h

/-- A doubly nested foreach flow used to exercise the depth counter of the
matching-join walk. -/
def nestedForeachGraph : List GNode :=
  [{ name := "start", type := "foreach", out_funcs := ["a"],
     foreach_param := some "xs" },
   { name := "a", type := "foreach", out_funcs := ["b"], in_funcs := ["start"],
     foreach_param := some "ys" },
   { name := "b", type := "linear", out_funcs := ["j1"], in_funcs := ["a"] },
   { name := "j1", type := "join", out_funcs := ["j2"], in_funcs := ["b"],
     takes_inputs := true },
   { name := "j2", type := "join", out_funcs := ["end"], in_funcs := ["j1"],
     takes_inputs := true },
   { name := "end", type := "end", out_funcs := [], in_funcs := ["j2"] }]

/-- C5 witness: on the nested graph the outer split resolves to the outer
join `j2` (the inner join `j1` is passed at depth 1), and the resolved node
is a join. -/
theorem C5_witness :
    find_matching_join nestedForeachGraph
        { name := "start", type := "foreach", out_funcs := ["a"],
          foreach_param := some "xs" } = some "j2" ∧
    ∃ cn, graphFind nestedForeachGraph "j2" = some cn ∧ cn.type = "join" :=
  ⟨by decide, C5_matching_join_walk nestedForeachGraph
      { name := "start", type := "foreach", out_funcs := ["a"],
        foreach_param := some "xs" } "j2" (by decide)⟩

/-- A branch split whose arms never reach a join (they run straight to
`end`): the matching-join walk is exhausted. -/
def joinlessSplitGraph : List GNode :=
  [{ name := "start", type := "split-and", out_funcs := ["a", "b"] },
   { name := "a", type := "linear", out_funcs := ["end"], in_funcs := ["start"] },
   { name := "b", type := "linear", out_funcs := ["end"], in_funcs := ["start"] },
   { name := "end", type := "end", out_funcs := [], in_funcs := ["a", "b"] }]

/-- C5 counterexample: on a split with no reachable join the walk is
exhausted, yet graph construction completes normally with the split's
`matching_join` left `None` — it does not fail with `UnreachableJoin` as the
claim states (no such failure path exists in graph.py lines 161-194). -/
theorem C5_counterexample :
    (assign_matching_joins joinlessSplitGraph).map
        (fun nd => (nd.name, nd.matching_join))
      = [("start", none), ("a", none), ("b", none), ("end", none)] := by
  decide

/-! ## Claims C6 and C1 -/

theorem runLoopGo_all_exc (outcomes : Nat → ChildOutcome) (maxR : Nat)
    (hfail : ∀ a, outcomes a = .exc) :
    ∀ (fuel attempt : Nat) (kbs : Option Int) (acc : List Nat),
      attempt + fuel = maxR + 1 → attempt ≤ maxR →
      runLoopGo outcomes maxR fuel attempt kbs acc
        = ⟨acc ++ List.range' attempt fuel, .excFinal⟩ := by
  intro fuel
  induction fuel with
  | zero => intro attempt kbs acc h1 h2; omega
  | succ fuel ih =>
    intro attempt kbs acc h1 h2
    rw [runLoopGo]
    simp only [runLoopBody, hfail attempt]
    by_cases hlt : attempt < maxR
    · rw [if_pos hlt, ih (attempt + 1) kbs (acc ++ [attempt]) (by omega) (by omega)]
      have hr : List.range' attempt (fuel + 1) = attempt :: List.range' (attempt + 1) fuel := rfl
      rw [hr]
      simp
    · have hfa : fuel = 0 := by omega
      subst hfa
      rw [if_neg hlt]
      simp [List.range']

/-- C6: for a step whose `@retry(times=n)` yields `max_retries = n` and whose
body raises on every attempt, exactly the `attempt` metadata entries
`0 … n` are registered, in order, before the final failure is handled
(suppressed or re-raised); in particular `times = 0` yields exactly one
attempt. -/
theorem C6_retry_attempt_entries (decos : List DecoModel)
    (outcomes : Nat → ChildOutcome) (pidx : Option Nat) (n : Nat)
    (hretry : maxRetriesOf decos = n)
    (hfail : ∀ a, outcomes a = .exc) :
    (execute_task_model decos outcomes pidx).attempts = List.range (n + 1) := by
  have hloop := runLoopGo_all_exc outcomes n hfail (n + 1) 0 none []
    (by omega) (by omega)
  by_cases hs : anySuppresses decos = true <;>
    simp [execute_task_model, runLoop, hretry, hloop, hs, List.range_eq_range']

/-- C6 witness: the spec's retry-and-catch scenario — `@catch` plus
`@retry(times=2)` around an always-raising body — registers exactly the
attempt entries `0`, `1`, `2`. -/
theorem C6_witness :
    (execute_task_model [⟨none, true, true⟩, ⟨some 2, false, false⟩]
        (fun _ => .exc) none).attempts = List.range 3 :=
  C6_retry_attempt_entries [⟨none, true, true⟩, ⟨some 2, false, false⟩]
    (fun _ => .exc) none 2 rfl (fun _ => rfl)

theorem runLoopGo_meta_head (outcomes : Nat → ChildOutcome) (maxR : Nat) :
    ∀ (fuel attempt : Nat) (kbs : Option Int) (acc : List Nat), 0 < fuel →
      ∃ rest, (runLoopGo outcomes maxR fuel attempt kbs acc).attemptsMeta
        = acc ++ attempt :: rest := by
  intro fuel
  induction fuel with
  | zero => intro _ _ _ h; omega
  | succ fuel ih =>
    intro attempt kbs acc _
    rw [runLoopGo]
    simp only [runLoopBody]
    cases ho : outcomes attempt with
    | ok tb => exact ⟨[], by simp⟩
    | exc =>
      by_cases hlt : attempt < maxR
      · rcases Nat.eq_zero_or_pos fuel with hf | hf
        · subst hf
          exact ⟨[], by simp [hlt, runLoopGo]⟩
        · obtain ⟨r, hr⟩ := ih (attempt + 1) kbs (acc ++ [attempt]) hf
          exact ⟨(attempt + 1) :: r, by simp [hlt, hr]⟩
      · exact ⟨[], by simp [hlt]⟩
    | killed sg =>
      by_cases hlt : attempt < maxR
      · rcases Nat.eq_zero_or_pos fuel with hf | hf
        · subst hf
          exact ⟨[], by simp [hlt, runLoopGo]⟩
        · obtain ⟨r, hr⟩ := ih (attempt + 1) (some sg) (acc ++ [attempt]) hf
          exact ⟨(attempt + 1) :: r, by simp [hlt, hr]⟩
      · exact ⟨[], by simp [hlt]⟩
    | badExit =>
      by_cases hlt : attempt < maxR
      · rcases Nat.eq_zero_or_pos fuel with hf | hf
        · subst hf
          exact ⟨[], by simp [hlt, runLoopGo]⟩
        · obtain ⟨r, hr⟩ := ih (attempt + 1)
            (some (match kbs with | some k => if k = 0 then -1 else k | none => -1))
            (acc ++ [attempt]) hf
          exact ⟨(attempt + 1) :: r, by simp [hlt, hr]⟩
      · exact ⟨[], by simp [hlt]⟩

theorem runLoopGo_success_ok (outcomes : Nat → ChildOutcome) (maxR : Nat) :
    ∀ (fuel attempt : Nat) (kbs : Option Int) (acc : List Nat)
      (tb : Option String), attempt ≤ maxR →
      (runLoopGo outcomes maxR fuel attempt kbs acc).exit = .success tb →
      ∃ a, a ≤ maxR ∧ outcomes a = .ok tb := by
  intro fuel
  induction fuel with
  | zero => intro attempt kbs acc tb _ h; simp [runLoopGo] at h
  | succ fuel ih =>
    intro attempt kbs acc tb hle h
    rw [runLoopGo] at h
    simp only [runLoopBody] at h
    cases ho : outcomes attempt with
    | ok tb2 =>
      simp only [ho] at h
      simp at h
      exact ⟨attempt, hle, by rw [ho, h]⟩
    | exc =>
      simp only [ho] at h
      by_cases hlt : attempt < maxR
      · rw [if_pos hlt] at h
        exact ih _ _ _ _ (by omega) h
      · rw [if_neg hlt] at h
        simp at h
    | killed sg =>
      simp only [ho] at h
      by_cases hlt : attempt < maxR
      · rw [if_pos hlt] at h
        exact ih _ _ _ _ (by omega) h
      · rw [if_neg hlt] at h
        simp at h
    | badExit =>
      simp only [ho] at h
      by_cases hlt : attempt < maxR
      · rw [if_pos hlt] at h
        exact ih _ _ _ _ (by omega) h
      · rw [if_neg hlt] at h
        simp at h

/-- C1 (amended): every `_execute_task` run persists its result exactly once,
with `_task_ok` a boolean — the `task_ok` flag of its single
`_save_task_results` call — and registers at least one `attempt` metadata
entry; and `_task_ok = true` implies that either some attempt's step body
returned without exception, or the failure was suppressed by a
`task_exception` hook (the `@catch` path) — not, as the claim states, that
the body necessarily returned without exception. -/
theorem C1_task_ok_semantics (decos : List DecoModel)
    (outcomes : Nat → ChildOutcome) (pidx : Option Nat) :
    (execute_task_model decos outcomes pidx).savedOks.length = 1 ∧
    (execute_task_model decos outcomes pidx).attempts ≠ [] ∧
    ((execute_task_model decos outcomes pidx).savedOks = [true] →
      (∃ a tb, a ≤ maxRetriesOf decos ∧ outcomes a = .ok tb) ∨
        anySuppresses decos = true) := by
  obtain ⟨rest, hmeta⟩ := runLoopGo_meta_head outcomes (maxRetriesOf decos)
    (maxRetriesOf decos + 1) 0 none [] (by omega)
  have hmeta2 : (runLoop outcomes (maxRetriesOf decos)).attemptsMeta = 0 :: rest := by
    rw [runLoop]
    simpa using hmeta
  cases hE : (runLoop outcomes (maxRetriesOf decos)).exit with
  | success tb =>
    simp only [execute_task_model, hE]
    refine ⟨rfl, by simp [hmeta2], fun _ => ?_⟩
    rw [runLoop] at hE
    obtain ⟨a, ha, hao⟩ := runLoopGo_success_ok outcomes (maxRetriesOf decos)
      (maxRetriesOf decos + 1) 0 none [] tb (by omega) hE
    exact Or.inl ⟨a, tb, ha, hao⟩
  | excFinal =>
    simp only [execute_task_model, hE]
    by_cases hs : anySuppresses decos = true
    · rw [if_pos hs]
      exact ⟨rfl, by simp [hmeta2], fun _ => Or.inr hs⟩
    · rw [if_neg hs]
      exact ⟨rfl, by simp [hmeta2], fun hcontra => by simp at hcontra⟩
  | signalExit sig =>
    simp only [execute_task_model, hE]
    by_cases hc : (hasCatchDeco decos && !isParNonControl pidx) = true
    · rw [if_pos hc]
      by_cases hs : anySuppresses decos = true
      · rw [if_pos hs]
        exact ⟨rfl, by simp [hmeta2], fun _ => Or.inr hs⟩
      · rw [if_neg hs]
        exact ⟨rfl, by simp [hmeta2], fun hcontra => by simp at hcontra⟩
    · rw [if_neg hc]
      by_cases hp : isParNonControl pidx = true
      · rw [if_pos hp]
        exact ⟨rfl, by simp [hmeta2], fun hcontra => by simp at hcontra⟩
      · rw [if_neg hp]
        exact ⟨rfl, by simp [hmeta2], fun hcontra => by simp at hcontra⟩

/-- C1 counterexample: under `@catch`, a body that raises on its only attempt
still persists `_task_ok = true` (one attempt entry `0`, a single save with
`task_ok = true`, no re-raise) although the step body never returned without
exception — `(fun _ => exc)` produces no successful attempt at all. -/
theorem C1_counterexample :
    execute_task_model [⟨none, true, true⟩] (fun _ => .exc) none
      = ⟨[0], [true], false, none⟩ := by
  decide

/-- C1 witness: a plain successful task — the amended implication's
hypothesis `savedOks = [true]` is discharged on a concrete run. -/
theorem C1_witness :
    (∃ a tb, a ≤ maxRetriesOf [] ∧
        (fun _ : Nat => ChildOutcome.ok (some "b")) a = ChildOutcome.ok tb) ∨
      anySuppresses [] = true :=
  (C1_task_ok_semantics [] (fun _ => .ok (some "b")) none).2.2 (by decide)

/-! ## Claim C2 -/

/-- C2 (code bug): on the empty-foreach flow, the split routine returns as
soon as it sees the empty list (runtime.py line 487) — before registering
the inner steps and before running the matching join.  The topological walk
then executes the inner step `worker` as an ordinary linear step, and the
join later runs over that task: the scheduler produces one `worker` task and
an `Inputs` view of length one, not zero inner tasks and a zero-length input
collection as the specification's boundary behaviour requires. -/
theorem C2_empty_foreach_inner_leak :
    (srGetD emptyForeachRun "start").length = 1 ∧
    (srGetD emptyForeachRun "worker").length = 1 ∧
    emptyForeachRun.joinInputLog = [("join", 1)] ∧
    (srGetD emptyForeachRun "end").length = 1 := by
  decide

/-! ## Claim C3 -/

section MergeProofs

variable {α : Type} [DecidableEq α]

theorem mem_unique_vals_aux (vs : List α) :
    ∀ (acc : List α) (x : α),
      (x ∈ vs.foldl (fun acc v => if acc.contains v then acc else acc ++ [v]) acc
        ↔ x ∈ acc ∨ x ∈ vs) := by
  induction vs with
  | nil => intro acc x; simp
  | cons v tl ih =>
    intro acc x
    simp only [List.foldl_cons]
    by_cases hc : acc.contains v = true
    · rw [if_pos hc, ih]
      have hv : v ∈ acc := List.elem_iff.mp hc
      constructor
      · rintro (h | h)
        · exact Or.inl h
        · exact Or.inr (List.mem_cons_of_mem _ h)
      · rintro (h | h)
        · exact Or.inl h
        · rcases List.mem_cons.mp h with rfl | h2
          · exact Or.inl hv
          · exact Or.inr h2
    · rw [if_neg hc, ih]
      simp [List.mem_append, or_assoc]

theorem mem_unique_vals (vs : List α) (x : α) :
    x ∈ unique_vals vs ↔ x ∈ vs := by
  have h := mem_unique_vals_aux vs [] x
  simpa [unique_vals] using h

theorem nodup_unique_vals_aux (vs : List α) :
    ∀ (acc : List α), acc.Nodup →
      (vs.foldl (fun acc v => if acc.contains v then acc else acc ++ [v]) acc).Nodup := by
  induction vs with
  | nil => intro acc h; simpa
  | cons v tl ih =>
    intro acc h
    simp only [List.foldl_cons]
    by_cases hc : acc.contains v = true
    · rw [if_pos hc]
      exact ih acc h
    · rw [if_neg hc]
      apply ih
      have hv : v ∉ acc := fun hm => hc (List.elem_iff.mpr hm)
      simp [List.nodup_append, h, hv]

theorem nodup_unique_vals (vs : List α) : (unique_vals vs).Nodup :=
  nodup_unique_vals_aux vs [] (by simp)

theorem two_distinct_length {l : List α} {v w : α}
    (hv : v ∈ l) (hw : w ∈ l) (hne : v ≠ w) : 2 ≤ l.length := by
  match l with
  | [] => simp at hv
  | [a] =>
    simp only [List.mem_singleton] at hv hw
    exact absurd (hv.trans hw.symm) hne
  | a :: b :: rest => simp

theorem two_le_unique_vals_iff (vs : List α) :
    2 ≤ (unique_vals vs).length ↔ ∃ v ∈ vs, ∃ w ∈ vs, v ≠ w := by
  constructor
  · intro h
    cases hu : unique_vals vs with
    | nil => rw [hu] at h; simp at h
    | cons a rest =>
      cases rest with
      | nil => rw [hu] at h; simp at h
      | cons b r =>
        have hnd := nodup_unique_vals vs
        rw [hu, List.nodup_cons] at hnd
        have hab : a ≠ b := fun hc => hnd.1 (by simp [hc])
        have ha : a ∈ vs := (mem_unique_vals vs a).mp (by rw [hu]; simp)
        have hb : b ∈ vs := (mem_unique_vals vs b).mp (by rw [hu]; simp)
        exact ⟨a, ha, b, hb, hab⟩
  · rintro ⟨v, hv, w, hw, hne⟩
    exact two_distinct_length ((mem_unique_vals vs v).mpr hv)
      ((mem_unique_vals vs w).mpr hw) hne

theorem unique_vals_singleton {vs : List α} {v : α}
    (hv : v ∈ vs) (hall : ∀ w ∈ vs, w = v) : unique_vals vs = [v] := by
  have hnd := nodup_unique_vals vs
  have hmem : v ∈ unique_vals vs := (mem_unique_vals vs v).mpr hv
  cases hu : unique_vals vs with
  | nil => rw [hu] at hmem; simp at hmem
  | cons a rest =>
    have ha : a = v := hall a ((mem_unique_vals vs a).mp (by rw [hu]; simp))
    cases rest with
    | nil => rw [ha]
    | cons b r =>
      have hb : b = v := hall b ((mem_unique_vals vs b).mp (by rw [hu]; simp))
      rw [hu, List.nodup_cons] at hnd
      exact absurd (ha.trans hb.symm) (fun hc => hnd.1 (by simp [hc]))

/-- The values a name takes in a list of artifacts, restricted by a keep
filter — the generic form of `candidate_values`. -/
def keepVals (keep : String → Bool) (l : List (String × α)) (name : String) :
    List α :=
  l.filterMap fun kv => if kv.1 = name ∧ keep kv.1 = true then some kv.2 else none

theorem candidate_values_eq_keepVals (self : JoinSelf α) (excl : List String)
    (inputs : List (List (String × α))) (name : String) :
    candidate_values self excl inputs name
      = keepVals (mergeKeeps self excl none) (inputs.flatMap id) name := rfl

theorem lookup_map_bump (m : List (String × List α)) (k : String) (v : α)
    (n : String) :
    ((m.map (fun kv => if kv.1 = k then (kv.1, kv.2 ++ [v]) else kv)).lookup n)
      = match m.lookup n with
        | some vs => some (if n = k then vs ++ [v] else vs)
        | none => none := by
  induction m with
  | nil => simp [List.lookup]
  | cons hd tl ih =>
    obtain ⟨k1, v1⟩ := hd
    by_cases hhd : k1 = k
    · subst hhd
      by_cases hn : n = k1
      · subst hn
        simp [List.map_cons, lookup_cons]
      · simp [List.map_cons, lookup_cons, hn, ih]
    · by_cases hn : n = k1
      · subst hn
        have hnk : n ≠ k := hhd
        simp [List.map_cons, lookup_cons, hhd, hnk]
      · simp [List.map_cons, lookup_cons, hn, hhd, ih]

theorem lookup_addVal (m : List (String × List α)) (k : String) (v : α)
    (n : String) :
    (addVal m k v).lookup n
      = if n = k then some ((m.lookup k).getD [] ++ [v]) else m.lookup n := by
  unfold addVal
  cases hm : m.lookup k with
  | some vs =>
    simp only [hm, Option.isSome_some, if_true, lookup_map_bump]
    by_cases hn : n = k
    · subst hn
      simp [hm]
    · simp only [hn, if_false]
      cases m.lookup n <;> simp [hn]
  | none =>
    simp only [hm, Option.isSome_none, Bool.false_eq_true, if_false]
    by_cases hn : n = k
    · subst hn
      rw [lookup_append_of_none _ _ _ hm, lookup_cons]
      simp [hm]
    · cases hmn : m.lookup n with
      | some w => rw [lookup_append_left _ _ _ (by simp [hmn]), hmn, if_neg hn]
      | none =>
        rw [lookup_append_of_none _ _ _ hmn, lookup_cons, if_neg hn, if_neg hn]
        rfl

theorem fold_addVal_lookup (keep : String → Bool) :
    ∀ (l : List (String × α)) (acc : List (String × List α)) (name : String),
      ((l.foldl (fun acc2 kv => if keep kv.1 then addVal acc2 kv.1 kv.2 else acc2) acc).lookup name)
        = match acc.lookup name with
          | some vs => some (vs ++ keepVals keep l name)
          | none =>
            if (keepVals keep l name).isEmpty then none
            else some (keepVals keep l name) := by
  intro l
  induction l with
  | nil =>
    intro acc name
    simp only [List.foldl_nil, keepVals, List.filterMap_nil]
    cases acc.lookup name <;> simp
  | cons hd tl ih =>
    intro acc name
    obtain ⟨k, v⟩ := hd
    simp only [List.foldl_cons]
    by_cases hkeep : keep k = true
    · rw [if_pos hkeep, ih]
      by_cases hkn : k = name
      · subst hkn
        have hkv : keepVals keep ((k, v) :: tl) k = v :: keepVals keep tl k := by
          simp [keepVals, List.filterMap_cons, hkeep]
        rw [hkv, lookup_addVal, if_pos rfl]
        cases hacc : acc.lookup k <;> simp [hacc]
      · have hkv : keepVals keep ((k, v) :: tl) name = keepVals keep tl name := by
          simp [keepVals, List.filterMap_cons, fun (h : k = name) => hkn h]
        rw [hkv, lookup_addVal, if_neg (fun hc => hkn hc.symm)]
    · rw [if_neg hkeep, ih]
      have hkv : keepVals keep ((k, v) :: tl) name = keepVals keep tl name := by
        simp [keepVals, List.filterMap_cons, hkeep]
      rw [hkv]

theorem collect_all_artifacts_lookup (self : JoinSelf α) (excl : List String)
    (inputs : List (List (String × α))) (name : String) :
    (collect_all_artifacts self excl none inputs).lookup name
      = (if (candidate_values self excl inputs name).isEmpty then none
         else some (candidate_values self excl inputs name)) := by
  unfold collect_all_artifacts
  rw [fold_addVal_lookup (mergeKeeps self excl none) (inputs.flatMap id) [] name]
  rfl

theorem addVal_keys (m : List (String × List α)) (k : String) (v : α) :
    (addVal m k v).map Prod.fst
      = if (m.lookup k).isSome then m.map Prod.fst
        else m.map Prod.fst ++ [k] := by
  unfold addVal
  cases h : (m.lookup k).isSome with
  | true =>
    simp only [if_true]
    rw [List.map_map]
    congr 1
    funext kv
    by_cases hk : kv.1 = k <;> simp [Function.comp, hk]
  | false => simp

theorem fold_addVal_nodup_keys (keep : String → Bool) :
    ∀ (l : List (String × α)) (acc : List (String × List α)),
      (acc.map Prod.fst).Nodup →
      (((l.foldl (fun acc2 kv => if keep kv.1 then addVal acc2 kv.1 kv.2 else acc2) acc).map
          Prod.fst).Nodup) := by
  intro l
  induction l with
  | nil => intro acc h; simpa
  | cons hd tl ih =>
    intro acc h
    simp only [List.foldl_cons]
    by_cases hkeep : keep hd.1 = true
    · rw [if_pos hkeep]
      apply ih
      rw [addVal_keys]
      cases hs : (acc.lookup hd.1).isSome with
      | true => simpa
      | false =>
        simp only [Bool.false_eq_true, if_false]
        have hnone : acc.lookup hd.1 = none := by
          cases hl : acc.lookup hd.1
          · rfl
          · rw [hl] at hs; simp at hs
        have hnm : hd.1 ∉ acc.map Prod.fst := (lookup_eq_none_iff _ _).mp hnone
        simp [List.nodup_append, h, hnm]
    · rw [if_neg hkeep]
      exact ih acc h

theorem collect_all_artifacts_nodup_keys (self : JoinSelf α) (excl : List String)
    (inclSet : Option (List String)) (inputs : List (List (String × α))) :
    ((collect_all_artifacts self excl inclSet inputs).map Prod.fst).Nodup := by
  unfold collect_all_artifacts
  exact fold_addVal_nodup_keys _ _ [] (by simp)

/-- What the conflict loop contributes to `unhandled` for one
`all_artifacts` entry. -/
def scanUnhandled (self : JoinSelf α) (kv : String × List α) : Option String :=
  if (self.artifacts.lookup kv.1).isSome then none
  else
    match unique_vals kv.2 with
    | [] => none
    | [_] => none
    | _ :: _ :: _ => some kv.1

/-- What the conflict loop contributes to `to_set` for one `all_artifacts`
entry. -/
def scanToSet (self : JoinSelf α) (kv : String × List α) : Option (String × α) :=
  if (self.artifacts.lookup kv.1).isSome then none
  else
    match unique_vals kv.2 with
    | [] => none
    | [v] => some (kv.1, v)
    | _ :: _ :: _ => none

theorem conflict_scan_fold (self : JoinSelf α) :
    ∀ (l : List (String × List α)) (acc : List String × List (String × α)),
      l.foldl (conflict_scan_step self) acc
        = (acc.1 ++ l.filterMap (scanUnhandled self),
           acc.2 ++ l.filterMap (scanToSet self)) := by
  intro l
  induction l with
  | nil => intro acc; simp
  | cons hd tl ih =>
    intro acc
    simp only [List.foldl_cons, ih]
    unfold conflict_scan_step
    by_cases hs : (self.artifacts.lookup hd.1).isSome = true
    · rw [if_pos hs]
      simp [List.filterMap_cons, scanUnhandled, scanToSet, hs]
    · rw [if_neg hs]
      cases hu : unique_vals hd.2 with
      | nil => simp [List.filterMap_cons, scanUnhandled, scanToSet, hs, hu]
      | cons a rest =>
        cases rest with
        | nil => simp [List.filterMap_cons, scanUnhandled, scanToSet, hs, hu]
        | cons b r => simp [List.filterMap_cons, scanUnhandled, scanToSet, hs, hu]

theorem scanUnhandled_ne_none_iff (self : JoinSelf α) (kv : String × List α) :
    scanUnhandled self kv ≠ none
      ↔ (self.artifacts.lookup kv.1 = none ∧ 2 ≤ (unique_vals kv.2).length) := by
  unfold scanUnhandled
  by_cases hs : (self.artifacts.lookup kv.1).isSome = true
  · rw [if_pos hs]
    constructor
    · intro h; exact absurd rfl h
    · rintro ⟨h1, _⟩; rw [h1] at hs; simp at hs
  · rw [if_neg hs]
    have hnone : self.artifacts.lookup kv.1 = none := by
      cases hl : self.artifacts.lookup kv.1
      · rfl
      · rw [hl] at hs; simp at hs
    cases hu : unique_vals kv.2 with
    | nil => simp [hnone, hu]
    | cons a rest =>
      cases rest with
      | nil => simp [hnone, hu]
      | cons b r =>
        simp only [hnone, hu, List.length_cons, true_and]
        constructor
        · intro _; omega
        · intro _; simp

theorem scanToSet_eq_some_iff (self : JoinSelf α) (kv : String × List α)
    (p : String × α) :
    scanToSet self kv = some p
      ↔ (self.artifacts.lookup kv.1 = none ∧ p.1 = kv.1 ∧
          unique_vals kv.2 = [p.2]) := by
  unfold scanToSet
  by_cases hs : (self.artifacts.lookup kv.1).isSome = true
  · rw [if_pos hs]
    constructor
    · intro h; cases h
    · rintro ⟨h1, _⟩; rw [h1] at hs; simp at hs
  · rw [if_neg hs]
    have hnone : self.artifacts.lookup kv.1 = none := by
      cases hl : self.artifacts.lookup kv.1
      · rfl
      · rw [hl] at hs; simp at hs
    cases hu : unique_vals kv.2 with
    | nil => simp [hnone, hu]
    | cons a rest =>
      cases rest with
      | nil =>
        simp only [hnone, hu, true_and]
        constructor
        · intro h
          injection h with h2
          obtain ⟨p1, p2⟩ := p
          obtain ⟨rfl, rfl⟩ := Prod.mk.injEq .. ▸ h2.symm
          · exact ⟨rfl, rfl⟩
        · rintro ⟨h1, h2⟩
          obtain ⟨p1, p2⟩ := p
          simp only at h1 h2
          injection h2 with h3
          rw [h1, h3]
      | cons b r => simp [hnone, hu]

theorem fold_dictSet_lookup :
    ∀ (ts base : List (String × α)) (n : String), ((ts.map Prod.fst).Nodup) →
      ((ts.foldl (fun a kv => dictSet a kv.1 kv.2) base).lookup n)
        = match ts.lookup n with
          | some v => some v
          | none => base.lookup n := by
  intro ts
  induction ts with
  | nil => intro base n _; simp
  | cons hd tl ih =>
    intro base n hnd
    obtain ⟨k, v⟩ := hd
    simp only [List.map_cons, List.nodup_cons] at hnd
    simp only [List.foldl_cons]
    rw [ih _ _ hnd.2, lookup_cons]
    by_cases hn : n = k
    · subst hn
      have htl : tl.lookup n = none := (lookup_eq_none_iff _ _).mpr hnd.1
      rw [htl, if_pos rfl]
      simp [dictSet_lookup]
    · rw [if_neg hn]
      cases htl : tl.lookup n with
      | some w => rfl
      | none => simp [dictSet_lookup, hn]

theorem filterMap_key_sublist (f : (String × List α) → Option (String × α))
    (hf : ∀ kv p, f kv = some p → p.1 = kv.1) :
    ∀ (l : List (String × List α)),
      ((l.filterMap f).map Prod.fst).Sublist (l.map Prod.fst) := by
  intro l
  induction l with
  | nil => simp
  | cons hd tl ih =>
    cases hfc : f hd with
    | none =>
      simp only [List.filterMap_cons, hfc, List.map_cons]
      exact ih.cons _
    | some p =>
      simp only [List.filterMap_cons, hfc, List.map_cons, hf hd p hfc]
      exact List.Sublist.cons₂ _ ih

def mergedArtifacts (self : JoinSelf α) (excl : List String)
    (inputs : List (List (String × α))) : List (String × α) :=
  ((collect_all_artifacts self excl none inputs).filterMap
    (scanToSet self)).foldl (fun a kv => dictSet a kv.1 kv.2) self.artifacts

theorem merge_artifacts_none_incl (self : JoinSelf α)
    (inputs : List (List (String × α))) (exclude : Option (List String)) :
    merge_artifacts self inputs exclude none
      = (if (collect_all_artifacts self (exclude.getD []) none inputs).filterMap
              (scanUnhandled self) = []
         then .ok { self with artifacts := mergedArtifacts self (exclude.getD []) inputs }
         else .error (.unhandledInMerge
            ((collect_all_artifacts self (exclude.getD []) none inputs).filterMap
              (scanUnhandled self)))) := by
  cases exclude with
  | none =>
    by_cases hU : (collect_all_artifacts self [] none inputs).filterMap
        (scanUnhandled self) = [] <;>
      simp [merge_artifacts, conflict_scan_fold, mergedArtifacts, hU]
  | some l =>
    by_cases hU : (collect_all_artifacts self l none inputs).filterMap
        (scanUnhandled self) = [] <;>
      simp [merge_artifacts, conflict_scan_fold, mergedArtifacts, hU]

theorem hasConflict_iff_scanUnhandled (self : JoinSelf α) (excl : List String)
    (inputs : List (List (String × α))) :
    (∃ name, HasConflict self excl inputs name)
      ↔ (collect_all_artifacts self excl none inputs).filterMap
          (scanUnhandled self) ≠ [] := by
  constructor
  · rintro ⟨name, hnone, v, hv, w, hw, hvw⟩
    intro hnil
    have hne : ¬ (candidate_values self excl inputs name).isEmpty = true := by
      cases hcv : candidate_values self excl inputs name with
      | nil => rw [hcv] at hv; simp at hv
      | cons a rest => simp [hcv]
    have hlook : (collect_all_artifacts self excl none inputs).lookup name
        = some (candidate_values self excl inputs name) := by
      rw [collect_all_artifacts_lookup, if_neg hne]
    have hmem := mem_of_lookup_eq_some hlook
    have hno := List.filterMap_eq_nil_iff.mp hnil _ hmem
    have h2 : 2 ≤ (unique_vals (candidate_values self excl inputs name)).length :=
      (two_le_unique_vals_iff _).mpr ⟨v, hv, w, hw, hvw⟩
    exact (scanUnhandled_ne_none_iff self _).mpr ⟨hnone, h2⟩ hno
  · intro hne
    obtain ⟨kv, hkv, hsc⟩ : ∃ kv ∈ collect_all_artifacts self excl none inputs,
        scanUnhandled self kv ≠ none := by
      by_contra hall
      push_neg at hall
      exact hne (List.filterMap_eq_nil_iff.mpr hall)
    obtain ⟨k1, vs⟩ := kv
    obtain ⟨hnone, h2⟩ := (scanUnhandled_ne_none_iff self (k1, vs)).mp hsc
    have hlook := lookup_of_mem_nodup hkv
      (collect_all_artifacts_nodup_keys self excl none inputs)
    rw [collect_all_artifacts_lookup] at hlook
    by_cases hce : (candidate_values self excl inputs k1).isEmpty = true
    · rw [if_pos hce] at hlook; cases hlook
    · rw [if_neg hce] at hlook
      have hkv2 : vs = candidate_values self excl inputs k1 := by
        injection hlook with h
        exact h.symm
      rw [hkv2] at h2
      obtain ⟨v, hv, w, hw, hvw⟩ := (two_le_unique_vals_iff _).mp h2
      exact ⟨k1, hnone, v, hv, w, hw, hvw⟩

theorem hasConflict_mem_keys (self : JoinSelf α) (excl : List String)
    (inputs : List (List (String × α))) (name : String)
    (hc : HasConflict self excl inputs name) :
    name ∈ (inputs.flatMap id).map Prod.fst := by
  obtain ⟨_, v, hv, _⟩ := hc
  unfold candidate_values at hv
  obtain ⟨kv, hkv, hif⟩ := List.mem_filterMap.mp hv
  by_cases h : kv.1 = name ∧ mergeKeeps self excl none kv.1 = true
  · exact h.1 ▸ List.mem_map.mpr ⟨kv, hkv, rfl⟩
  · rw [if_neg h] at hif; cases hif

/-- C3: `merge_artifacts` fails with `UnhandledInMerge` exactly when some
candidate name (surviving the underscore/immutable/exclude filters and not
already set on `self`) takes more than one distinct value across the inputs;
the source builds `to_set` first and only writes to `self` after the
conflict check, which the functional model mirrors by producing the merged
state only in the non-error branch, so an erroring call leaves `self`
unchanged.  When no candidate name conflicts, the call succeeds, preserves
every artifact already on `self`, and applies every candidate's (unique)
value.  `include` is not given here; its `MissingInMerge` path is a
different error with its own claim-free behaviour. -/
theorem C3_merge_artifacts (self : JoinSelf α)
    (inputs : List (List (String × α))) (exclude : Option (List String)) :
    ((∃ names, merge_artifacts self inputs exclude none
        = .error (.unhandledInMerge names)) ↔
      ∃ name, HasConflict self (exclude.getD []) inputs name) ∧
    ((∀ name ∈ (inputs.flatMap id).map Prod.fst,
        ¬ HasConflict self (exclude.getD []) inputs name) →
      ∃ r, merge_artifacts self inputs exclude none = .ok r ∧
        (∀ k, (self.artifacts.lookup k).isSome →
          r.artifacts.lookup k = self.artifacts.lookup k) ∧
        (∀ name v, self.artifacts.lookup name = none →
          v ∈ candidate_values self (exclude.getD []) inputs name →
          (∀ w ∈ candidate_values self (exclude.getD []) inputs name, w = v) →
          r.artifacts.lookup name = some v)) := by
  have hred := merge_artifacts_none_incl self inputs exclude
  have hTnd : (((collect_all_artifacts self (exclude.getD []) none inputs).filterMap
      (scanToSet self)).map Prod.fst).Nodup := by
    apply List.Sublist.nodup
    · apply filterMap_key_sublist
      intro kv p hp
      exact ((scanToSet_eq_some_iff self kv p).mp hp).2.1
    · exact collect_all_artifacts_nodup_keys self (exclude.getD []) none inputs
  constructor
  · constructor
    · rintro ⟨names, hm⟩
      rw [hred] at hm
      by_cases hU : (collect_all_artifacts self (exclude.getD []) none inputs).filterMap
          (scanUnhandled self) = []
      · rw [if_pos hU] at hm; cases hm
      · exact (hasConflict_iff_scanUnhandled self _ inputs).mpr hU
    · intro hc
      have hU := (hasConflict_iff_scanUnhandled self _ inputs).mp hc
      rw [hred, if_neg hU]
      exact ⟨_, rfl⟩
  · intro hno
    have hU : (collect_all_artifacts self (exclude.getD []) none inputs).filterMap
        (scanUnhandled self) = [] := by
      by_contra hne
      obtain ⟨name, hc⟩ := (hasConflict_iff_scanUnhandled self _ inputs).mpr hne
      exact hno name (hasConflict_mem_keys self _ inputs name hc) hc
    rw [hred, if_pos hU]
    refine ⟨_, rfl, ?_, ?_⟩
    · intro k hk
      simp only [mergedArtifacts]
      rw [fold_dictSet_lookup _ _ _ hTnd]
      have hTl : ((collect_all_artifacts self (exclude.getD []) none inputs).filterMap
          (scanToSet self)).lookup k = none := by
        cases hTl : ((collect_all_artifacts self (exclude.getD []) none inputs).filterMap
            (scanToSet self)).lookup k with
        | none => rfl
        | some w =>
          obtain ⟨kv, _, hsc⟩ := List.mem_filterMap.mp (mem_of_lookup_eq_some hTl)
          obtain ⟨hn0, hp1, _⟩ := (scanToSet_eq_some_iff self kv (k, w)).mp hsc
          rw [show k = kv.1 from hp1, hn0] at hk
          simp at hk
      rw [hTl]
    · intro name v hsn hv hall
      have hu := unique_vals_singleton hv hall
      have hne : ¬ (candidate_values self (exclude.getD []) inputs name).isEmpty = true := by
        cases hcv : candidate_values self (exclude.getD []) inputs name with
        | nil => rw [hcv] at hv; simp at hv
        | cons a rest => simp [hcv]
      have hlook : (collect_all_artifacts self (exclude.getD []) none inputs).lookup name
          = some (candidate_values self (exclude.getD []) inputs name) := by
        rw [collect_all_artifacts_lookup, if_neg hne]
      have hsc : scanToSet self (name, candidate_values self (exclude.getD []) inputs name)
          = some (name, v) :=
        (scanToSet_eq_some_iff self _ _).mpr ⟨hsn, rfl, hu⟩
      have hmT : (name, v) ∈ (collect_all_artifacts self (exclude.getD []) none inputs).filterMap
          (scanToSet self) :=
        List.mem_filterMap.mpr ⟨_, mem_of_lookup_eq_some hlook, hsc⟩
      simp only [mergedArtifacts]
      rw [fold_dictSet_lookup _ _ _ hTnd, lookup_of_mem_nodup hmT hTnd]

end MergeProofs

/-- C3 witness: conflicting inputs (`b` takes the distinct values 2 and 3)
make the merge fail with `UnhandledInMerge`; conflict-free inputs merge
`a = 1` onto the join self while its own artifact `c` is preserved. -/
theorem C3_witness :
    (∃ names, merge_artifacts (⟨[], []⟩ : JoinSelf Int)
        [[("a", 1), ("b", 2)], [("a", 1), ("b", 3)]] none none
      = .error (.unhandledInMerge names)) ∧
    (∃ r, merge_artifacts (⟨[("c", (7 : Int))], []⟩ : JoinSelf Int)
        [[("a", 1), ("b", 2)], [("a", 1), ("b", 2)]] none none = .ok r ∧
      r.artifacts.lookup "a" = some 1 ∧ r.artifacts.lookup "c" = some 7) := by
  constructor
  · exact (C3_merge_artifacts ⟨[], []⟩
      [[("a", 1), ("b", 2)], [("a", 1), ("b", 3)]] none).1.mpr
      ⟨"b", by unfold HasConflict; decide⟩
  · obtain ⟨r, hok, hpres, happ⟩ := (C3_merge_artifacts ⟨[("c", (7 : Int))], []⟩
      [[("a", 1), ("b", 2)], [("a", 1), ("b", 2)]] none).2
      (by simp only [HasConflict]; decide)
    exact ⟨r, hok, happ "a" 1 (by decide) (by decide) (by decide),
      (hpres "c" (by decide)).trans (by decide)⟩

/-- Model validation: on the same flow with foreach list `[1, 2, 3]` the
scheduler model reproduces the specified foreach behaviour — one split task,
three worker tasks, a join over exactly three inputs whose body computes
`ys = [2, 4, 6]`, and one end task. -/
theorem foreach_model_nonempty_sanity :
    (srGetD (run_scheduler foreachGraph (foreachBodies [1, 2, 3])) "start").length = 1 ∧
    (srGetD (run_scheduler foreachGraph (foreachBodies [1, 2, 3])) "worker").length = 3 ∧
    (run_scheduler foreachGraph (foreachBodies [1, 2, 3])).joinInputLog = [("join", 3)] ∧
    ((srGetD (run_scheduler foreachGraph (foreachBodies [1, 2, 3])) "join").map
        (fun e => e.2.lookup "ys"))
      = [some (RVal.rlist [2, 4, 6])] := by
  decide

end MetaflowZero
